import Mathlib

/-!
Yopta backend: sliding-window rate limiter and expiring cache

A shallow embedding of `backend/internal/middleware/ratelimit.go`,
`backend/internal/cache/cache.go`, `backend/internal/utils/sanitizer.go`,
`backend/internal/utils/ratelimit.go` and the route table of
`backend/cmd/server/main.go`.

Conventions of the embedding.

* A Go `map[string]V` is a lookup function `String → Option V`; reading a
  missing key of a `map[string][]time.Time` yields the nil slice, i.e. `[]`.
* Every method that calls `time.Now()` takes the clock reading as an explicit
  argument `now`, and every method that mutates its receiver returns the new
  receiver value.  The mutex only serialises calls, so a method body is one
  atomic state transition.
* In the limiter a `time.Time` is its monotonic clock reading in nanoseconds
  and a `time.Duration` is a number of nanoseconds.  `now.Sub(t)` on two
  monotonic readings is their difference (both readings are non-negative
  `int64` values, so the saturation of `Sub` at `±2^63` cannot be reached).
* In the cache the clock reading is the `int64` value of
  `time.Now().UnixNano()` (nanoseconds since the Unix epoch), and
  `time.Now().Add(d).UnixNano()` is that value plus `d`, reduced to `int64`.
* Functions of the Go standard library that the code calls on arbitrary data
  (`json.Marshal`, `json.Unmarshal`, `net.SplitHostPort`, `os.LookupEnv`,
  `strconv.Atoi`, `time.ParseDuration`) are parameters of the embedding;
  `html.EscapeString`, `strings.Index` and `strings.ReplaceAll` are written
  out.
* An `http.ResponseWriter` is the sequence of calls made on it, and an
  `http.Handler` is a function on such sequences.
-/

namespace Yopta

/-- A Go `map[string]V`. -/
abbrev GoMap (V : Type) := String → Option V

namespace GoMap

/-- The empty map, `make(map[string]V)`. -/
def empty {V : Type} : GoMap V := fun _ => none

/-- The assignment `m[k] = v`. -/
def set {V : Type} (m : GoMap V) (k : String) (v : V) : GoMap V :=
  fun k' => if k' = k then some v else m k'

/-- The builtin `delete(m, k)`. -/
def delete {V : Type} (m : GoMap V) (k : String) : GoMap V :=
  fun k' => if k' = k then none else m k'

end GoMap

/-! ## `middleware/ratelimit.go` -/

namespace middleware

/-- Go `type RateLimitConfig struct { MaxRequests int; Window time.Duration }`. -/
structure RateLimitConfig where
  MaxRequests : Int
  Window : Int
  deriving DecidableEq, Repr

/-- Go `type RateLimiter struct` (the embedded mutex is dropped). -/
structure RateLimiter where
  ipRequests : GoMap (List Int)
  pathRequests : GoMap (List Int)
  pathConfigs : GoMap RateLimitConfig
  defaultConfig : RateLimitConfig
  cleanupInterval : Int

/-- Go `NewRateLimiter`, without the start of the background sweep. -/
def NewRateLimiter (defaultMaxRequests defaultWindow cleanupInterval : Int) : RateLimiter :=
  { ipRequests := GoMap.empty
    pathRequests := GoMap.empty
    pathConfigs := GoMap.empty
    defaultConfig := { MaxRequests := defaultMaxRequests, Window := defaultWindow }
    cleanupInterval := cleanupInterval }

/-- The filtering loop shared by `isIPAllowed`, `isPathAllowed` and `cleanup`:
```
newTimes := []time.Time{}
for _, t := range times {
    if now.Sub(t) < window { newTimes = append(newTimes, t) }
}
``` -/
def filterWindow (now window : Int) (times : List Int) : List Int :=
  times.foldl (fun newTimes t => if now - t < window then newTimes ++ [t] else newTimes) []

namespace RateLimiter

/-- Go `func (rl *RateLimiter) SetPathConfig(path, maxRequests, window)`. -/
def SetPathConfig (rl : RateLimiter) (path : String) (maxRequests window : Int) : RateLimiter :=
  { rl with pathConfigs := rl.pathConfigs.set path { MaxRequests := maxRequests, Window := window } }

/-- Go `func (rl *RateLimiter) getConfigForPath(path) RateLimitConfig`. -/
def getConfigForPath (rl : RateLimiter) (path : String) : RateLimitConfig :=
  match rl.pathConfigs path with
  | some config => config
  | none => rl.defaultConfig

/-- Go `func (rl *RateLimiter) isIPAllowed(ip) bool`, with the clock reading `now`;
returns the decision and the limiter after the call. -/
def isIPAllowed (rl : RateLimiter) (ip : String) (now : Int) : Bool × RateLimiter :=
  let times := (rl.ipRequests ip).getD []
  let newTimes := filterWindow now rl.defaultConfig.Window times
  if (newTimes.length : Int) ≥ rl.defaultConfig.MaxRequests then
    (false, { rl with ipRequests := rl.ipRequests.set ip newTimes })
  else
    (true, { rl with ipRequests := rl.ipRequests.set ip (newTimes ++ [now]) })

/-- Go `func (rl *RateLimiter) isPathAllowed(path) bool`, with the clock reading
`now`; returns the decision and the limiter after the call. -/
def isPathAllowed (rl : RateLimiter) (path : String) (now : Int) : Bool × RateLimiter :=
  let config := rl.getConfigForPath path
  let times := (rl.pathRequests path).getD []
  let newTimes := filterWindow now config.Window times
  if (newTimes.length : Int) ≥ config.MaxRequests then
    (false, { rl with pathRequests := rl.pathRequests.set path newTimes })
  else
    (true, { rl with pathRequests := rl.pathRequests.set path (newTimes ++ [now]) })

/-- One pass of the loop body of `func (rl *RateLimiter) cleanup()` at the
clock reading `now`: every key of both tables is visited once; its sequence is
filtered (default window for client keys, resolved window for paths) and
stored back, or the key is deleted when nothing is left. -/
def cleanup (rl : RateLimiter) (now : Int) : RateLimiter :=
  { rl with
    ipRequests := fun ip =>
      match rl.ipRequests ip with
      | none => none
      | some times =>
        let newTimes := filterWindow now rl.defaultConfig.Window times
        if newTimes.length > 0 then some newTimes else none
    pathRequests := fun path =>
      match rl.pathRequests path with
      | none => none
      | some times =>
        let config := rl.getConfigForPath path
        let newTimes := filterWindow now config.Window times
        if newTimes.length > 0 then some newTimes else none }

/-- The limiter after successive `isIPAllowed(ip)` calls at the clock readings
`ts`, in that order. -/
def ipChecks (rl : RateLimiter) (ip : String) : List Int → RateLimiter
  | [] => rl
  | t :: ts => ipChecks (rl.isIPAllowed ip t).2 ip ts

/-- The decisions of successive `isIPAllowed(ip)` calls at the clock readings
`ts`. -/
def ipResults (rl : RateLimiter) (ip : String) : List Int → List Bool
  | [] => []
  | t :: ts => (rl.isIPAllowed ip t).1 :: ipResults (rl.isIPAllowed ip t).2 ip ts

/-- The clock readings among `ts` at which `isIPAllowed(ip)` returned true. -/
def ipAdmitted (rl : RateLimiter) (ip : String) : List Int → List Int
  | [] => []
  | t :: ts =>
    if (rl.isIPAllowed ip t).1 then t :: ipAdmitted (rl.isIPAllowed ip t).2 ip ts
    else ipAdmitted (rl.isIPAllowed ip t).2 ip ts

/-- The limiter after successive `isPathAllowed(path)` calls at the clock
readings `ts`, in that order. -/
def pathChecks (rl : RateLimiter) (path : String) : List Int → RateLimiter
  | [] => rl
  | t :: ts => pathChecks (rl.isPathAllowed path t).2 path ts

/-- The decisions of successive `isPathAllowed(path)` calls at the clock
readings `ts`. -/
def pathResults (rl : RateLimiter) (path : String) : List Int → List Bool
  | [] => []
  | t :: ts => (rl.isPathAllowed path t).1 :: pathResults (rl.isPathAllowed path t).2 path ts

/-- The clock readings among `ts` at which `isPathAllowed(path)` returned
true. -/
def pathAdmitted (rl : RateLimiter) (path : String) : List Int → List Int
  | [] => []
  | t :: ts =>
    if (rl.isPathAllowed path t).1 then t :: pathAdmitted (rl.isPathAllowed path t).2 path ts
    else pathAdmitted (rl.isPathAllowed path t).2 path ts

end RateLimiter

/-! ### The per-key sliding-window step, used to reason about both tables -/

/-- One check on a single stored sequence: the decision and the sequence
stored afterwards. -/
def windowStep (N W : Int) (stored : List Int) (now : Int) : Bool × List Int :=
  if ((filterWindow now W stored).length : Int) ≥ N then (false, filterWindow now W stored)
  else (true, filterWindow now W stored ++ [now])

/-- The stored sequence after checks at `ts`. -/
def windowRun (N W : Int) : List Int → List Int → List Int
  | stored, [] => stored
  | stored, t :: ts => windowRun N W (windowStep N W stored t).2 ts

/-- The decisions of the checks at `ts`. -/
def windowResults (N W : Int) : List Int → List Int → List Bool
  | _, [] => []
  | stored, t :: ts => (windowStep N W stored t).1 :: windowResults N W (windowStep N W stored t).2 ts

/-- The admitted readings among `ts`. -/
def windowAdmitted (N W : Int) : List Int → List Int → List Int
  | _, [] => []
  | stored, t :: ts =>
    if (windowStep N W stored t).1 then t :: windowAdmitted N W (windowStep N W stored t).2 ts
    else windowAdmitted N W (windowStep N W stored t).2 ts

/-! ### `GetClientIP` and `RateLimitMiddleware` -/

/-- The parts of an `*http.Request` the middleware reads: `r.Header.Get`, as
the function from a header name to its first value (`""` when absent),
`r.RemoteAddr` and `r.URL.Path`. -/
structure Request where
  Header : String → String
  RemoteAddr : String
  URLPath : String

/-- A call made on an `http.ResponseWriter`: `w.Header().Set(key, value)`,
`w.WriteHeader(statusCode)` or `w.Write(body)`. -/
inductive ResponseCall where
  | headerSet (key value : String) : ResponseCall
  | writeHeader (statusCode : Int) : ResponseCall
  | write (body : String) : ResponseCall
  deriving DecidableEq, Repr

/-- An `http.ResponseWriter`, as the calls made on it so far, oldest first. -/
abbrev ResponseWriter := List ResponseCall

/-- An `http.Handler`: what `ServeHTTP(w, r)` leaves of the writer. -/
abbrev Handler := ResponseWriter → Request → ResponseWriter

/-- The function of package `net` that `GetClientIP` calls:
`SplitHostPort(hostport)` as `some (host, port)`, or `none` on error. -/
structure NetPkg where
  SplitHostPort : String → Option (String × String)

/-- Go `strings.Index(s, substr)` on character sequences: the position of the
first occurrence of `substr` in `s`, or `-1`. -/
def stringsIndex : List Char → List Char → Int
  | [], substr => if substr.isEmpty then 0 else -1
  | c :: cs, substr =>
    if substr.isPrefixOf (c :: cs) then 0
    else if stringsIndex cs substr = -1 then -1
    else stringsIndex cs substr + 1

/-- Go `func GetClientIP(r *http.Request) string`.  Positions count
characters; the separator `", "` is ASCII, so cutting at its position is the
same cut as on bytes. -/
def GetClientIP (net : NetPkg) (r : Request) : String :=
  let xff := r.Header "X-Forwarded-For"
  if xff ≠ "" then
    let i := stringsIndex xff.toList ", ".toList
    let i := if i = -1 then (xff.toList.length : Int) else i
    String.mk (xff.toList.take i.toNat)
  else
    let xrip := r.Header "X-Real-IP"
    if xrip ≠ "" then xrip
    else
      match net.SplitHostPort r.RemoteAddr with
      | some (ip, _) => ip
      | none => r.RemoteAddr

/-- The body written when the client check denies. -/
def ipDeniedBody : String :=
  "\x7b\"error\": \"Per daug užklausų. Bandykite vėliau.\"\x7d"

/-- The body written when the path check denies. -/
def pathDeniedBody : String :=
  "\x7b\"error\": \"Šis API endpointas šiuo metu ribojamas. Bandykite vėliau.\"\x7d"

/-- Go `func RateLimitMiddleware(limiter) func(http.Handler) http.Handler`,
applied to `next`, `w` and `r`.  `now1` and `now2` are the clock readings of
the `isIPAllowed` and of the `isPathAllowed` call; the result is the limiter
and the writer after the request. -/
def RateLimitMiddleware (net : NetPkg) (limiter : RateLimiter) (next : Handler)
    (w : ResponseWriter) (r : Request) (now1 now2 : Int) : RateLimiter × ResponseWriter :=
  let ip := GetClientIP net r
  let path := r.URLPath
  let ipAllowed := limiter.isIPAllowed ip now1
  let pathAllowed := ipAllowed.2.isPathAllowed path now2
  if !ipAllowed.1 then
    (pathAllowed.2,
      w ++ [ResponseCall.headerSet "Content-Type" "application/json",
        ResponseCall.headerSet "Retry-After" "60",
        ResponseCall.writeHeader 429,
        ResponseCall.write ipDeniedBody])
  else if !pathAllowed.1 then
    (pathAllowed.2,
      w ++ [ResponseCall.headerSet "Content-Type" "application/json",
        ResponseCall.headerSet "Retry-After" "60",
        ResponseCall.writeHeader 429,
        ResponseCall.write pathDeniedBody])
  else
    (pathAllowed.2, next w r)

/-! ### Histories of calls on one limiter -/

/-- A call on the limiter: `SetPathConfig`, `isIPAllowed` or `isPathAllowed`
with the clock reading of the call, or one pass of the sweep at a clock
reading. -/
inductive Op where
  | setPathConfig (path : String) (maxRequests window : Int) : Op
  | checkIP (ip : String) (now : Int) : Op
  | checkPath (path : String) (now : Int) : Op
  | sweep (now : Int) : Op

/-- The clock reading a call takes, if it takes one. -/
def Op.time : Op → Option Int
  | Op.setPathConfig _ _ _ => none
  | Op.checkIP _ now => some now
  | Op.checkPath _ now => some now
  | Op.sweep now => some now

/-- The limiter after one call. -/
def RateLimiter.step (rl : RateLimiter) : Op → RateLimiter
  | Op.setPathConfig path maxRequests window => rl.SetPathConfig path maxRequests window
  | Op.checkIP ip now => (rl.isIPAllowed ip now).2
  | Op.checkPath path now => (rl.isPathAllowed path now).2
  | Op.sweep now => rl.cleanup now

/-- The limiter after the calls `ops`, in order. -/
def RateLimiter.run (rl : RateLimiter) : List Op → RateLimiter
  | [] => rl
  | op :: ops => RateLimiter.run (rl.step op) ops

/-- Every `SetPathConfig` call of the history leaves room for what is stored:
at the call, the new `maxRequests` is not below the number of timestamps then
recorded for the path. -/
def RateLimiter.overridesFit (rl : RateLimiter) : List Op → Prop
  | [] => True
  | Op.setPathConfig path maxRequests window :: ops =>
    ((((rl.pathRequests path).getD []).length : Int) ≤ maxRequests)
      ∧ RateLimiter.overridesFit (rl.SetPathConfig path maxRequests window) ops
  | op :: ops => RateLimiter.overridesFit (rl.step op) ops

/-- Every key of both tables holds at most as many timestamps as the
`MaxRequests` resolved for it, or none when that is negative. -/
def RateLimiter.withinLimits (rl : RateLimiter) : Prop :=
  ∀ k : String,
    ((((rl.ipRequests k).getD []).length : Int) ≤ max rl.defaultConfig.MaxRequests 0)
      ∧ ((((rl.pathRequests k).getD []).length : Int) ≤ max (rl.getConfigForPath k).MaxRequests 0)

/-- Every sequence of both tables is in non-decreasing order and holds no
reading after `B`. -/
def RateLimiter.orderedUpTo (rl : RateLimiter) (B : Int) : Prop :=
  ∀ k : String,
    (List.Pairwise (· ≤ ·) ((rl.ipRequests k).getD []) ∧ ∀ t ∈ (rl.ipRequests k).getD [], t ≤ B)
      ∧ (List.Pairwise (· ≤ ·) ((rl.pathRequests k).getD [])
        ∧ ∀ t ∈ (rl.pathRequests k).getD [], t ≤ B)

end middleware

/-! ## `cache/cache.go` -/

namespace cache

/-- A Go `interface{}` value held by the cache: `nil`, a boolean, a number, a
string, a `[]interface{}`, a `map[string]interface{}` (as its key/value
pairs), or a value of a kind `encoding/json` cannot serialise (a func or
chan), told apart by a tag. -/
inductive Value where
  | nil : Value
  | bool (b : Bool) : Value
  | num (n : Int) : Value
  | str (s : String) : Value
  | slice (xs : List Value) : Value
  | object (kvs : List (String × Value)) : Value
  | chan (tag : Nat) : Value

/-- Go `type Item struct { Value interface{}; Expiration int64 }`. -/
structure Item where
  Value : Value
  Expiration : Int

/-- Go `type Cache struct` (the mutex is dropped). -/
structure Cache where
  items : GoMap Item

/-- Reduction of an integer to its `int64` two's-complement value. -/
def wrapInt64 (n : Int) : Int := (n + 2 ^ 63) % 2 ^ 64 - 2 ^ 63

/-- The two `encoding/json` entry points `SafeSet` calls, as functions that
fail with `none`: `Marshal` to bytes and `Unmarshal` into an
`interface{}`. -/
structure JSONCodec where
  Marshal : Value → Option (List Nat)
  Unmarshal : List Nat → Option Value

/-- What `html.EscapeString` does to one character. -/
def escapeChar (c : Char) : List Char :=
  if c = '&' then "&amp;".toList
  else if c = Char.ofNat 39 then "&#39;".toList
  else if c = '<' then "&lt;".toList
  else if c = '>' then "&gt;".toList
  else if c = Char.ofNat 34 then "&#34;".toList
  else [c]

/-- Go `html.EscapeString`: escapes `<`, `>`, `&`, the apostrophe and the
double quote. -/
def htmlEscapeString (s : String) : String :=
  String.mk ((s.toList.map escapeChar).flatten)

/-- Go `func SanitizeString(input string) string` of `cache.go`. -/
def SanitizeString (input : String) : String :=
  let escaped := htmlEscapeString input
  escaped

/-- A codec to instantiate `JSONCodec` in examples: a string is serialised as
its code points and read back from them, any other value is rejected.  On
strings it acts as `encoding/json` does on valid UTF-8: the round trip gives
the string back. -/
def codePointCodec : JSONCodec :=
  { Marshal := fun v =>
      match v with
      | Value.str s => some (s.toList.map Char.toNat)
      | _ => none
    Unmarshal := fun bytes => some (Value.str (String.mk (bytes.map Char.ofNat))) }

/-- Go `NewCache`, without the start of the background sweep. -/
def NewCache : Cache := { items := GoMap.empty }

namespace Cache

/-- Go `func (c *Cache) Set(key, value, duration)`.  `now` is the value of
`time.Now().UnixNano()` at the call; `time.Now().Add(duration).UnixNano()` is
`now + duration` computed in `int64`. -/
def Set (c : Cache) (key : String) (value : Value) (duration : Int) (now : Int) : Cache :=
  let expiration := wrapInt64 (now + duration)
  { c with items := c.items.set key { Value := value, Expiration := expiration } }

/-- Go `func (c *Cache) SafeSet(key, value, duration)`. -/
def SafeSet (json : JSONCodec) (c : Cache) (key : String) (value : Value) (duration : Int)
    (now : Int) : Cache :=
  match json.Marshal value with
  | none => c
  | some jsonBytes =>
    match json.Unmarshal jsonBytes with
    | none => c
    | some sanitizedValue =>
      let expiration := wrapInt64 (now + duration)
      { c with items := c.items.set key { Value := sanitizedValue, Expiration := expiration } }

/-- Go `func (c *Cache) Get(key) (interface{}, bool)`; `now` is the value of
`time.Now().UnixNano()` at the call. -/
def Get (c : Cache) (key : String) (now : Int) : Value × Bool :=
  match c.items key with
  | none => (Value.nil, false)
  | some item =>
    if item.Expiration > 0 ∧ now > item.Expiration then (Value.nil, false)
    else (item.Value, true)

/-- Go `func (c *Cache) SafeGetString(key) (string, bool)`. -/
def SafeGetString (c : Cache) (key : String) (now : Int) : String × Bool :=
  match c.items key with
  | none => ("", false)
  | some item =>
    if item.Expiration > 0 ∧ now > item.Expiration then ("", false)
    else
      match item.Value with
      | Value.str strValue => (SanitizeString strValue, true)
      | _ => ("", false)

/-- The table after `Get(key)`: the body takes the read lock, reads
`c.items[key]` and returns; it holds no assignment to `c.items` and no
`delete`, on any path. -/
def tableAfterGet (c : Cache) (_key : String) (_now : Int) : Cache := c

/-- The table after `SafeGetString(key)`: as for `Get`, the body only reads
`c.items`. -/
def tableAfterSafeGetString (c : Cache) (_key : String) (_now : Int) : Cache := c

/-- Go `func (c *Cache) Delete(key)`. -/
def Delete (c : Cache) (key : String) : Cache :=
  { c with items := c.items.delete key }

/-- One pass of the loop body of `cleanupRoutine` at the reading `now`. -/
def cleanupRoutine (c : Cache) (now : Int) : Cache :=
  { c with items := fun k =>
      match c.items k with
      | none => none
      | some v => if v.Expiration > 0 ∧ now > v.Expiration then none else some v }

/-- Go `func (c *Cache) Flush()`. -/
def Flush (c : Cache) : Cache :=
  { c with items := GoMap.empty }

end Cache

/-- A write to the cache: a `Set` or a `SafeSet` call with its arguments and
the clock reading at the call. -/
inductive Write where
  | set (key : String) (value : Value) (duration : Int) (now : Int) : Write
  | safeSet (key : String) (value : Value) (duration : Int) (now : Int) : Write

/-- The key a write is addressed to. -/
def Write.key : Write → String
  | Write.set key _ _ _ => key
  | Write.safeSet key _ _ _ => key

/-- The cache after the writes `ws`, in order. -/
def applyWrites (json : JSONCodec) : Cache → List Write → Cache
  | c, [] => c
  | c, Write.set key value duration now :: ws => applyWrites json (c.Set key value duration now) ws
  | c, Write.safeSet key value duration now :: ws =>
    applyWrites json (c.SafeSet json key value duration now) ws

end cache

/-! ## `utils/sanitizer.go` and `utils/ratelimit.go` -/

namespace utils

/-- The scan of Go `strings.ReplaceAll(s, old, new)` for a non-empty `old`:
left to right, each occurrence of `old` found is replaced by `new` and the
scan goes on after it.  The counter is the number of characters of a matched
occurrence still to pass over. -/
def replaceAllAux (old new : List Char) : Nat → List Char → List Char
  | _, [] => []
  | skip + 1, _ :: cs => replaceAllAux old new skip cs
  | 0, c :: cs =>
    if old.isPrefixOf (c :: cs) then new ++ replaceAllAux old new (old.length - 1) cs
    else c :: replaceAllAux old new 0 cs

/-- Go `strings.ReplaceAll(s, old, new)`, for a non-empty `old`. -/
def ReplaceAll (s old new : String) : String :=
  String.mk (replaceAllAux old.toList new.toList 0 s.toList)

/-- Go `func SanitizeString(input string) string` of `utils/sanitizer.go`. -/
def SanitizeString (input : String) : String :=
  let escaped := cache.htmlEscapeString input
  let escaped := ReplaceAll escaped "javascript:" "blocked:"
  let escaped := ReplaceAll escaped "data:" "blocked:"
  escaped

mutual
/-- Go `func sanitizeValue(value interface{}) interface{}`: the type switch
on `string`, `[]interface{}`, `map[string]interface{}` and `default`. -/
def sanitizeValue : cache.Value → cache.Value
  | cache.Value.str v => cache.Value.str (SanitizeString v)
  | cache.Value.slice v => cache.Value.slice (sanitizeSlice v)
  | cache.Value.object v => cache.Value.object (sanitizeMap v)
  | cache.Value.nil => cache.Value.nil
  | cache.Value.bool b => cache.Value.bool b
  | cache.Value.num n => cache.Value.num n
  | cache.Value.chan tag => cache.Value.chan tag
/-- The loop `for i, item := range v { sanitizedSlice[i] = sanitizeValue(item) }`. -/
def sanitizeSlice : List cache.Value → List cache.Value
  | [] => []
  | item :: rest => sanitizeValue item :: sanitizeSlice rest
/-- The loop `for key, val := range v { sanitizedMap[key] = sanitizeValue(val) }`. -/
def sanitizeMap : List (String × cache.Value) → List (String × cache.Value)
  | [] => []
  | (key, val) :: rest => (key, sanitizeValue val) :: sanitizeMap rest
end

/-- Go `func SanitizeJSON(jsonData []byte) ([]byte, error)`; an error is
`none`. -/
def SanitizeJSON (json : cache.JSONCodec) (jsonData : List Nat) : Option (List Nat) :=
  match json.Unmarshal jsonData with
  | none => none
  | some data =>
    let sanitizedData := sanitizeValue data
    json.Marshal sanitizedData

/-- What `utils/ratelimit.go` reads from outside: `os.LookupEnv`,
`strconv.Atoi` and `time.ParseDuration` (a duration in nanoseconds), each
`none` when the variable is unset or the text does not parse. -/
structure Environ where
  LookupEnv : String → Option String
  Atoi : String → Option Int
  ParseDuration : String → Option Int

/-- Go `func getEnvAsInt(key string, fallback int) int`. -/
def getEnvAsInt (env : Environ) (key : String) (fallback : Int) : Int :=
  match env.LookupEnv key with
  | some value =>
    match env.Atoi value with
    | some intVal => intVal
    | none => fallback
  | none => fallback

/-- Go `func getEnvAsDuration(key string, fallback time.Duration) time.Duration`. -/
def getEnvAsDuration (env : Environ) (key : String) (fallback : Int) : Int :=
  match env.LookupEnv key with
  | some value =>
    match env.ParseDuration value with
    | some duration => duration
    | none => fallback
  | none => fallback

/-- The duration `time.Minute`, in nanoseconds. -/
def Minute : Int := 60000000000

/-- Go `func InitRateLimiter() *middleware.RateLimiter` (the log line is
dropped). -/
def InitRateLimiter (env : Environ) : middleware.RateLimiter :=
  let defaultMaxRequests := getEnvAsInt env "RATE_LIMIT_DEFAULT_MAX" 100
  let defaultWindow := getEnvAsDuration env "RATE_LIMIT_DEFAULT_WINDOW" (1 * Minute)
  let cleanupInterval := getEnvAsDuration env "RATE_LIMIT_CLEANUP_INTERVAL" (5 * Minute)
  let limiter := middleware.NewRateLimiter defaultMaxRequests defaultWindow cleanupInterval
  let authMaxRequests := getEnvAsInt env "RATE_LIMIT_AUTH_MAX" 5
  let authWindow := getEnvAsDuration env "RATE_LIMIT_AUTH_WINDOW" (1 * Minute)
  let limiter := limiter.SetPathConfig "/api/v1/login" authMaxRequests authWindow
  let limiter := limiter.SetPathConfig "/api/v1/register" authMaxRequests authWindow
  let limiter := limiter.SetPathConfig "/api/v1/refresh-token" authMaxRequests authWindow
  let limiter := limiter.SetPathConfig "/api/v1/verify-email" authMaxRequests authWindow
  let limiter := limiter.SetPathConfig "/api/v1/change-password" authMaxRequests authWindow
  let adminMaxRequests := getEnvAsInt env "RATE_LIMIT_ADMIN_MAX" 20
  let adminWindow := getEnvAsDuration env "RATE_LIMIT_ADMIN_WINDOW" (1 * Minute)
  let limiter := limiter.SetPathConfig "/api/v1/users" adminMaxRequests adminWindow
  let limiter := limiter.SetPathConfig "/api/v1/add-user" adminMaxRequests adminWindow
  let limiter := limiter.SetPathConfig "/api/v1/update-user-role" adminMaxRequests adminWindow
  let limiter := limiter.SetPathConfig "/api/v1/update-user-status" adminMaxRequests adminWindow
  let limiter := limiter.SetPathConfig "/api/v1/delete-user" adminMaxRequests adminWindow
  limiter

end utils

/-! ## `cmd/server/main.go` -/

namespace server

/-- The route patterns that `main` registers on the chi router, in source
order (those of `r.Route("/api/v1", ...)` with their mount point). -/
def routePatterns : List String :=
  ["/assets/*", "/avatars/*", "/*",
    "/api/v1/system-settings", "/api/v1/register", "/api/v1/login", "/api/v1/refresh-token",
    "/api/v1/verify-email", "/api/v1/test",
    "/api/v1/register",
    "/api/v1/auth-ping", "/api/v1/profile", "/api/v1/profile-theme", "/api/v1/profile-avatar",
    "/api/v1/change-password", "/api/v1/profile-avatar",
    "/api/v1/client-logs", "/api/v1/stations", "/api/v1/stations/\x7bid\x7d",
    "/api/v1/system-settings", "/api/v1/blacklisted-ips", "/api/v1/blacklisted-ips",
    "/api/v1/blacklisted-ips", "/api/v1/users", "/api/v1/add-user",
    "/api/v1/update-user-role", "/api/v1/update-user-status",
    "/api/v1/update-user-verification", "/api/v1/delete-user/\x7bid\x7d",
    "/api/v1/client-logs", "/api/v1/client-logs/\x7bid\x7d", "/api/v1/client-logs/statistics",
    "/api/v1/client-logs",
    "/api/v1/logs", "/api/v1/logs/statistics", "/api/v1/logs",
    "/api/v1/cache/clear",
    "/api/v1/stations", "/api/v1/stations/\x7bid\x7d", "/api/v1/stations/\x7bid\x7d",
    "/api/v1/stations/\x7bstationId\x7d/tracks", "/api/v1/tracks/\x7btrackId\x7d",
    "/api/v1/tracks/\x7btrackId\x7d"]

end server

namespace middleware

/-! ### Lemmas on the filtering loop and the per-key step -/

theorem filterWindow_foldl (now window : Int) (times acc : List Int) :
    times.foldl (fun newTimes t => if now - t < window then newTimes ++ [t] else newTimes) acc
      = acc ++ times.filter (fun t => decide (now - t < window)) := by
  induction times generalizing acc with
  | nil => simp
  | cons t ts ih =>
    by_cases h : now - t < window
    · simp [List.foldl_cons, ih, h, List.filter_cons]
    · simp [List.foldl_cons, ih, h, List.filter_cons]

theorem filterWindow_eq_filter (now window : Int) (times : List Int) :
    filterWindow now window times = times.filter (fun t => decide (now - t < window)) := by
  unfold filterWindow
  rw [filterWindow_foldl]
  simp

theorem filterWindow_idem_of_le (t now W : Int) (l : List Int) (h : t ≤ now) :
    filterWindow now W (filterWindow t W l) = filterWindow now W l := by
  simp only [filterWindow_eq_filter, List.filter_filter]
  apply List.filter_congr
  intro x _
  by_cases hx : now - x < W
  · have : t - x < W := by omega
    simp [hx, this]
  · simp [hx]

theorem filterWindow_append (now W : Int) (l₁ l₂ : List Int) :
    filterWindow now W (l₁ ++ l₂) = filterWindow now W l₁ ++ filterWindow now W l₂ := by
  simp [filterWindow_eq_filter]

theorem windowStep_fst (N W : Int) (stored : List Int) (now : Int) :
    (windowStep N W stored now).1 = true ↔ ((filterWindow now W stored).length : Int) < N := by
  unfold windowStep
  by_cases h : ((filterWindow now W stored).length : Int) ≥ N
  · simp [h]
  · simp [h]; omega

theorem windowStep_snd (N W : Int) (stored : List Int) (now : Int) :
    (windowStep N W stored now).2
      = filterWindow now W stored ++ (if (windowStep N W stored now).1 then [now] else []) := by
  unfold windowStep
  by_cases h : ((filterWindow now W stored).length : Int) ≥ N
  · simp [h]
  · simp [h]

/-- The stored sequence and the admitted history agree on every window that
ends at or after the last check. -/
theorem windowRun_filter_eq (N W : Int) (pre : List Int) :
    ∀ (s h : List Int) (lo now : Int),
      (∀ u, lo ≤ u → filterWindow u W s = filterWindow u W h) →
      (∀ x ∈ pre, lo ≤ x) → List.Pairwise (· ≤ ·) (pre ++ [now]) → lo ≤ now →
      filterWindow now W (windowRun N W s pre)
        = filterWindow now W (h ++ windowAdmitted N W s pre) := by
  induction pre with
  | nil =>
    intro s h lo now hinv _ _ hlo
    simpa [windowRun, windowAdmitted] using hinv now hlo
  | cons t pre ih =>
    intro s h lo now hinv hge hsorted hlo
    have hlt : lo ≤ t := hge t (by simp)
    have hs : List.Pairwise (· ≤ ·) (t :: (pre ++ [now])) := by simpa using hsorted
    rw [List.pairwise_cons] at hs
    have htnow : t ≤ now := hs.1 now (by simp)
    have hinv2 : ∀ u, t ≤ u →
        filterWindow u W (windowStep N W s t).2
          = filterWindow u W (h ++ (if (windowStep N W s t).1 then [t] else [])) := by
      intro u hu
      rw [windowStep_snd, filterWindow_append, filterWindow_append,
        filterWindow_idem_of_le t u W s hu, hinv u (le_trans hlt hu)]
    have key := ih (windowStep N W s t).2 (h ++ (if (windowStep N W s t).1 then [t] else []))
      t now hinv2 (fun x hx => hs.1 x (by simp [hx])) hs.2 htnow
    simp only [windowRun]
    rw [key]
    by_cases hd : (windowStep N W s t).1 = true
    · simp [windowAdmitted, hd]
    · simp [windowAdmitted, hd]

/-- From a fresh record and along non-decreasing check times, a check is
admitted exactly when fewer than `N` of the earlier admitted readings are
still inside the window. -/
theorem windowStep_iff_admitted (N W : Int) (pre : List Int) (now : Int)
    (hsorted : List.Pairwise (· ≤ ·) (pre ++ [now])) :
    (windowStep N W (windowRun N W [] pre) now).1 = true ↔
      ((List.countP (fun t => decide (now - t < W)) (windowAdmitted N W [] pre) : Nat) : Int)
        < N := by
  rw [windowStep_fst]
  cases pre with
  | nil => simp [windowRun, windowAdmitted, filterWindow_eq_filter]
  | cons t pre =>
    have hs : List.Pairwise (· ≤ ·) (t :: (pre ++ [now])) := by simpa using hsorted
    have hs2 := hs
    rw [List.pairwise_cons] at hs2
    have h := windowRun_filter_eq N W (t :: pre) [] [] t now (fun _ _ => rfl)
      (by
        intro x hx
        rcases List.mem_cons.mp hx with rfl | hx
        · exact le_refl _
        · exact hs2.1 x (by simp [hx]))
      hsorted (hs2.1 now (by simp))
    rw [h, List.nil_append, filterWindow_eq_filter, List.countP_eq_length_filter]

theorem windowRun_append (N W : Int) (ts : List Int) (t : Int) :
    ∀ s, windowRun N W s (ts ++ [t]) = (windowStep N W (windowRun N W s ts) t).2 := by
  induction ts with
  | nil => intro s; simp [windowRun]
  | cons u ts ih => intro s; simp [windowRun, ih]

theorem windowAdmitted_append (N W : Int) (ts : List Int) (t : Int) :
    ∀ s, windowAdmitted N W s (ts ++ [t])
      = windowAdmitted N W s ts
        ++ (if (windowStep N W (windowRun N W s ts) t).1 then [t] else []) := by
  induction ts with
  | nil =>
    intro s
    by_cases h : (windowStep N W s t).1 = true
    · simp [windowAdmitted, windowRun, h]
    · simp [windowAdmitted, windowRun, h]
  | cons u ts ih =>
    intro s
    by_cases h : (windowStep N W s u).1 = true
    · simp [windowAdmitted, windowRun, h, ih]
    · simp [windowAdmitted, windowRun, h, ih]

theorem windowResults_append (N W : Int) (ts : List Int) (t : Int) :
    ∀ s, windowResults N W s (ts ++ [t])
      = windowResults N W s ts ++ [(windowStep N W (windowRun N W s ts) t).1] := by
  induction ts with
  | nil => intro s; simp [windowResults, windowRun]
  | cons u ts ih => intro s; simp [windowResults, windowRun, ih]

theorem windowAdmitted_sublist (N W : Int) (ts : List Int) :
    ∀ s, List.Sublist (windowAdmitted N W s ts) ts := by
  induction ts with
  | nil => intro s; simp [windowAdmitted]
  | cons u ts ih =>
    intro s
    by_cases h : (windowStep N W s u).1 = true
    · simpa [windowAdmitted, h] using ih _
    · simpa [windowAdmitted, h] using (ih (windowStep N W s u).2).trans (List.sublist_cons_self u ts)

/-- In a non-decreasing list, if every entry from index `i` on passes `p`, at
least `length - i` entries pass. -/
theorem countP_ge_of_sorted_tail (p : Int → Bool) (A : List Int) (i : Nat) (a : Int)
    (hA : List.Pairwise (· ≤ ·) A) (hi : A[i]? = some a) (hp : ∀ x, a ≤ x → x ∈ A → p x = true) :
    A.length - i ≤ List.countP p A := by
  have hsplit : A = A.take i ++ A.drop i := (List.take_append_drop i A).symm
  have hlt : i < A.length := by
    rcases List.getElem?_eq_some.mp hi with ⟨h, _⟩
    exact h
  have hai : A[i] = a := by
    rcases List.getElem?_eq_some.mp hi with ⟨_, h⟩
    exact h
  have hdrop : A.drop i = a :: A.drop (i + 1) := by
    rw [← hai]; exact List.drop_eq_getElem_cons hlt
  have hpd : List.Pairwise (· ≤ ·) (A.drop i) := hA.sublist (List.drop_sublist i A)
  have hall : ∀ x ∈ A.drop i, p x = true := by
    intro x hx
    have hxA : x ∈ A := List.mem_of_mem_drop hx
    rw [hdrop] at hx hpd
    rcases List.mem_cons.mp hx with rfl | hx
    · exact hp _ (le_refl _) hxA
    · exact hp x ((List.pairwise_cons.mp hpd).1 x hx) hxA
  have hc : List.countP p (A.drop i) = (A.drop i).length := List.countP_eq_length.mpr hall
  calc A.length - i = (A.drop i).length := by simp
    _ = List.countP p (A.drop i) := hc.symm
    _ ≤ List.countP p (A.take i) + List.countP p (A.drop i) := Nat.le_add_left _ _
    _ = List.countP p A := by rw [← List.countP_append, List.take_append_drop]

/-- Admitted readings `N` places apart are at least `W` apart. -/
theorem windowAdmitted_spacing (N W : Int) (ts : List Int) :
    List.Pairwise (· ≤ ·) ts →
    ∀ (i j : Nat) (a b : Int), (windowAdmitted N W [] ts)[i]? = some a →
      (windowAdmitted N W [] ts)[j]? = some b → (i : Int) + N = j → W ≤ b - a := by
  induction ts using List.reverseRecOn with
  | nil => intro _ i j a b hi; simp [windowAdmitted] at hi
  | append_singleton ts t ih =>
    intro hsorted i j a b hi hj hij
    have hpre : List.Pairwise (· ≤ ·) ts := (List.pairwise_append.mp hsorted).1
    have hle : ∀ x ∈ ts, x ≤ t := fun x hx => (List.pairwise_append.mp hsorted).2.2 x hx t (by simp)
    rw [windowAdmitted_append] at hi hj
    by_cases hd : (windowStep N W (windowRun N W [] ts) t).1 = true
    · simp only [hd, if_true] at hi hj
      have hchar := (windowStep_iff_admitted N W ts t hsorted).mp hd
      set A := windowAdmitted N W [] ts with hA
      have hAsub : List.Sublist A ts := windowAdmitted_sublist N W ts []
      have hAs : List.Pairwise (· ≤ ·) A := hpre.sublist hAsub
      have hNpos : 0 < N := by
        have : (0 : Int) ≤ ((List.countP (fun t_1 => decide (t - t_1 < W)) A : Nat) : Int) :=
          Int.ofNat_nonneg _
        omega
      by_cases hjA : j < A.length
      · have hiA : i < A.length := by omega
        rw [List.getElem?_append_left hjA] at hj
        rw [List.getElem?_append_left hiA] at hi
        exact ih hpre i j a b hi hj hij
      · have hjlen : j < (A ++ [t]).length := (List.getElem?_eq_some.mp hj).1
        have hjeq : j = A.length := by simp at hjlen; omega
        have hb : b = t := by
          subst hjeq
          simpa using hj.symm
        have hiA : i < A.length := by omega
        rw [List.getElem?_append_left hiA] at hi
        by_contra hcon
        have hcount := countP_ge_of_sorted_tail (fun x => decide (t - x < W)) A i a hAs hi
          (by
            intro x hax _
            have : t - x < W := by omega
            simpa using this)
        have : ((A.length - i : Nat) : Int) ≤
            ((List.countP (fun x => decide (t - x < W)) A : Nat) : Int) := by exact_mod_cast hcount
        omega
    · simp only [hd] at hi hj
      simp only [Bool.false_eq_true, if_false, List.append_nil] at hi hj
      exact ih hpre i j a b hi hj hij

/-! ### A burst of checks inside one window -/

theorem filterWindow_eq_self (now W : Int) (s : List Int) (h : ∀ x ∈ s, now - x < W) :
    filterWindow now W s = s := by
  rw [filterWindow_eq_filter]
  exact List.filter_eq_self.mpr (fun x hx => by simpa using h x hx)

/-- Readings that are non-decreasing and all less than `W` after the first
are pairwise less than `W` apart. -/
theorem pairwise_within_of_head (W t0 : Int) (ts : List Int)
    (hsorted : List.Pairwise (· ≤ ·) ts) (hhead : ts.head? = some t0)
    (hwithin : ∀ t ∈ ts, t - t0 < W) : List.Pairwise (fun t u => u - t < W) ts := by
  cases ts with
  | nil => simp
  | cons a rest =>
    have ha : a = t0 := by simpa using hhead
    subst ha
    rw [List.pairwise_cons] at hsorted ⊢
    refine ⟨fun u hu => hwithin u (by simp [hu]), ?_⟩
    refine List.Pairwise.imp_of_mem ?_ hsorted.2
    intro t u ht hu _
    have h1 := hsorted.1 t ht
    have h2 := hwithin u (by simp [hu])
    omega

/-- While every stored reading stays inside the window, the checks fill the
record up to `N` entries and are denied from then on. -/
theorem windowRun_burst (N W : Int) (ts : List Int) :
    ∀ s : List Int, (∀ x ∈ s, ∀ t ∈ ts, t - x < W) → List.Pairwise (fun t u => u - t < W) ts →
      windowRun N W s ts = s ++ ts.take (N.toNat - s.length)
        ∧ windowResults N W s ts
          = (List.range ts.length).map (fun i => decide (((s.length + i : Nat) : Int) < N)) := by
  induction ts with
  | nil => intro s _ _; simp [windowRun, windowResults]
  | cons t ts ih =>
    intro s hs hp
    rw [List.pairwise_cons] at hp
    have hf : filterWindow t W s = s := filterWindow_eq_self t W s (fun x hx => hs x hx t (by simp))
    by_cases hd : (s.length : Int) < N
    · have hstep : windowStep N W s t = (true, s ++ [t]) := by
        unfold windowStep
        rw [hf]
        simp [hd]
      obtain ⟨i1, i2⟩ := ih (s ++ [t])
        (by
          intro x hx u hu
          rcases List.mem_append.mp hx with hx | hx
          · exact hs x hx u (by simp [hu])
          · have : x = t := by simpa using hx
            subst this
            exact hp.1 u hu)
        hp.2
      simp only [windowRun, windowResults, hstep]
      rw [i1, i2]
      constructor
      · have : N.toNat - s.length = (N.toNat - (s ++ [t]).length) + 1 := by
          simp only [List.length_append, List.length_singleton]
          omega
        rw [this, List.take_succ_cons]
        simp
      · rw [List.length_cons, List.range_succ_eq_map, List.map_cons, List.map_map]
        simp only [Nat.add_zero, hd, decide_True, List.cons.injEq, true_and]
        apply List.map_congr_left
        intro i _
        simp only [List.length_append, List.length_singleton, Function.comp]
        congr 2
        omega
    · have hstep : windowStep N W s t = (false, s) := by
        unfold windowStep
        rw [hf]
        simp [hd]
      obtain ⟨i1, i2⟩ := ih s (fun x hx u hu => hs x hx u (by simp [hu])) hp.2
      simp only [windowRun, windowResults, hstep]
      rw [i1, i2]
      constructor
      · have h0 : N.toNat - s.length = 0 := by omega
        simp [h0]
      · rw [List.length_cons, List.range_succ_eq_map, List.map_cons, List.map_map]
        simp only [Nat.add_zero, hd, decide_False, List.cons.injEq, true_and]
        apply List.map_congr_left
        intro i _
        simp only [Function.comp]
        have h1 : ¬ (((s.length + i : Nat) : Int) < N) := by push_cast; omega
        have h2 : ¬ (((s.length + (i + 1) : Nat) : Int) < N) := by push_cast; omega
        rw [decide_eq_false h1, decide_eq_false h2]

theorem map_range_decide_lt (N : Int) (m : Nat) :
    (List.range m).map (fun i => decide (((0 + i : Nat) : Int) < N))
      = List.replicate (min N.toNat m) true ++ List.replicate (m - N.toNat) false := by
  apply List.ext_getElem
  · simp; omega
  · intro i h1 h2
    simp only [List.getElem_map, List.getElem_range, List.getElem_append, List.getElem_replicate,
      List.length_replicate]
    have hm : i < m := by simpa using h1
    by_cases h : i < min N.toNat m
    · have : (i : Int) < N := by omega
      simp [h, this]
    · have : ¬ (i : Int) < N := by omega
      simp [h, this]

theorem windowResults_fresh_burst (N W t0 : Int) (ts : List Int)
    (hsorted : List.Pairwise (· ≤ ·) ts) (hhead : ts.head? = some t0)
    (hwithin : ∀ t ∈ ts, t - t0 < W) :
    windowResults N W [] ts
      = List.replicate (min N.toNat ts.length) true
        ++ List.replicate (ts.length - N.toNat) false := by
  have h := (windowRun_burst N W ts [] (by simp)
    (pairwise_within_of_head W t0 ts hsorted hhead hwithin)).2
  rw [h]
  simp only [List.length_nil]
  exact map_range_decide_lt N ts.length

/-- After a burst inside one window, a check more than `W` after the first
admitted reading is admitted. -/
theorem windowStep_after_burst (N W t0 now : Int) (ts : List Int) (hN : 1 ≤ N)
    (hsorted : List.Pairwise (· ≤ ·) ts) (hhead : ts.head? = some t0)
    (hwithin : ∀ t ∈ ts, t - t0 < W) (hlater : W < now - t0) :
    (windowStep N W (windowRun N W [] ts) now).1 = true := by
  have h := (windowRun_burst N W ts [] (by simp)
    (pairwise_within_of_head W t0 ts hsorted hhead hwithin)).1
  rw [windowStep_fst, h]
  cases ts with
  | nil => simp at hhead
  | cons a rest =>
    have ha : a = t0 := by simpa using hhead
    subst ha
    obtain ⟨k, hk⟩ : ∃ k, N.toNat = k + 1 := ⟨N.toNat - 1, by omega⟩
    have hdrop : ¬ (now - a < W) := by omega
    simp only [List.nil_append, List.length_nil, Nat.sub_zero, hk, List.take_succ_cons,
      filterWindow_eq_filter]
    rw [List.filter_cons_of_neg (by simpa using hdrop)]
    have h1 := List.length_filter_le (fun t => decide (now - t < W)) (List.take k rest)
    have h2 := List.length_take_le k rest
    omega

/-! ### The two admission checks as instances of the per-key step -/

namespace RateLimiter

theorem isIPAllowed_eq_windowStep (rl : RateLimiter) (ip : String) (now : Int) :
    (rl.isIPAllowed ip now).1
        = (windowStep rl.defaultConfig.MaxRequests rl.defaultConfig.Window
            ((rl.ipRequests ip).getD []) now).1
      ∧ ((rl.isIPAllowed ip now).2.ipRequests ip).getD []
        = (windowStep rl.defaultConfig.MaxRequests rl.defaultConfig.Window
            ((rl.ipRequests ip).getD []) now).2
      ∧ (rl.isIPAllowed ip now).2.defaultConfig = rl.defaultConfig := by
  unfold isIPAllowed windowStep
  by_cases h : ((filterWindow now rl.defaultConfig.Window ((rl.ipRequests ip).getD [])).length : Int)
      ≥ rl.defaultConfig.MaxRequests
  · simp [h, GoMap.set]
  · simp [h, GoMap.set]

theorem isPathAllowed_configs (rl : RateLimiter) (path : String) (now : Int) :
    (rl.isPathAllowed path now).2.pathConfigs = rl.pathConfigs
      ∧ (rl.isPathAllowed path now).2.defaultConfig = rl.defaultConfig
      ∧ (rl.isPathAllowed path now).2.ipRequests = rl.ipRequests := by
  unfold isPathAllowed
  simp only []
  split <;> exact ⟨rfl, rfl, rfl⟩

theorem isPathAllowed_getConfigForPath (rl : RateLimiter) (path p : String) (now : Int) :
    (rl.isPathAllowed path now).2.getConfigForPath p = rl.getConfigForPath p := by
  obtain ⟨h1, h2, _⟩ := isPathAllowed_configs rl path now
  unfold getConfigForPath
  rw [h1, h2]

theorem isPathAllowed_eq_windowStep (rl : RateLimiter) (path : String) (now : Int) :
    (rl.isPathAllowed path now).1
        = (windowStep (rl.getConfigForPath path).MaxRequests (rl.getConfigForPath path).Window
            ((rl.pathRequests path).getD []) now).1
      ∧ ((rl.isPathAllowed path now).2.pathRequests path).getD []
        = (windowStep (rl.getConfigForPath path).MaxRequests (rl.getConfigForPath path).Window
            ((rl.pathRequests path).getD []) now).2
      ∧ (rl.isPathAllowed path now).2.getConfigForPath path = rl.getConfigForPath path := by
  refine ⟨?_, ?_, isPathAllowed_getConfigForPath rl path path now⟩
  · unfold isPathAllowed windowStep
    simp only []
    split <;> rfl
  · unfold isPathAllowed windowStep
    simp only []
    split <;> simp [GoMap.set]

theorem ipChecks_eq_windowRun (ip : String) (ts : List Int) :
    ∀ rl : RateLimiter,
      ((rl.ipChecks ip ts).ipRequests ip).getD []
          = windowRun rl.defaultConfig.MaxRequests rl.defaultConfig.Window
              ((rl.ipRequests ip).getD []) ts
        ∧ (rl.ipChecks ip ts).defaultConfig = rl.defaultConfig
        ∧ rl.ipResults ip ts
          = windowResults rl.defaultConfig.MaxRequests rl.defaultConfig.Window
              ((rl.ipRequests ip).getD []) ts
        ∧ rl.ipAdmitted ip ts
          = windowAdmitted rl.defaultConfig.MaxRequests rl.defaultConfig.Window
              ((rl.ipRequests ip).getD []) ts := by
  induction ts with
  | nil => intro rl; simp [ipChecks, ipResults, ipAdmitted, windowRun, windowResults, windowAdmitted]
  | cons t ts ih =>
    intro rl
    obtain ⟨h1, h2, h3⟩ := isIPAllowed_eq_windowStep rl ip t
    obtain ⟨i1, i2, i3, i4⟩ := ih (rl.isIPAllowed ip t).2
    simp only [ipChecks, ipResults, ipAdmitted, windowRun, windowResults, windowAdmitted]
    rw [i1, i2, i3, i4, h3, h2, h1]
    simp

theorem pathChecks_eq_windowRun (path : String) (ts : List Int) :
    ∀ rl : RateLimiter,
      ((rl.pathChecks path ts).pathRequests path).getD []
          = windowRun (rl.getConfigForPath path).MaxRequests (rl.getConfigForPath path).Window
              ((rl.pathRequests path).getD []) ts
        ∧ (rl.pathChecks path ts).getConfigForPath path = rl.getConfigForPath path
        ∧ rl.pathResults path ts
          = windowResults (rl.getConfigForPath path).MaxRequests (rl.getConfigForPath path).Window
              ((rl.pathRequests path).getD []) ts
        ∧ rl.pathAdmitted path ts
          = windowAdmitted (rl.getConfigForPath path).MaxRequests
              (rl.getConfigForPath path).Window ((rl.pathRequests path).getD []) ts := by
  induction ts with
  | nil =>
    intro rl
    simp [pathChecks, pathResults, pathAdmitted, windowRun, windowResults, windowAdmitted]
  | cons t ts ih =>
    intro rl
    obtain ⟨h1, h2, h3⟩ := isPathAllowed_eq_windowStep rl path t
    obtain ⟨i1, i2, i3, i4⟩ := ih (rl.isPathAllowed path t).2
    simp only [pathChecks, pathResults, pathAdmitted, windowRun, windowResults, windowAdmitted]
    rw [i1, i2, i3, i4, h3, h2, h1]
    simp

theorem ipResults_fresh_burst (rl : RateLimiter) (ip : String) (ts : List Int) (t0 : Int)
    (hfresh : rl.ipRequests ip = none) (hsorted : List.Pairwise (· ≤ ·) ts)
    (hhead : ts.head? = some t0) (hwithin : ∀ t ∈ ts, t - t0 < rl.defaultConfig.Window) :
    rl.ipResults ip ts
      = List.replicate (min rl.defaultConfig.MaxRequests.toNat ts.length) true
        ++ List.replicate (ts.length - rl.defaultConfig.MaxRequests.toNat) false := by
  obtain ⟨_, _, e3, _⟩ := ipChecks_eq_windowRun ip ts rl
  rw [e3, hfresh, Option.getD_none]
  exact windowResults_fresh_burst _ _ t0 ts hsorted hhead hwithin

theorem pathResults_fresh_burst (rl : RateLimiter) (path : String) (ts : List Int) (t0 : Int)
    (hfresh : rl.pathRequests path = none) (hsorted : List.Pairwise (· ≤ ·) ts)
    (hhead : ts.head? = some t0)
    (hwithin : ∀ t ∈ ts, t - t0 < (rl.getConfigForPath path).Window) :
    rl.pathResults path ts
      = List.replicate (min (rl.getConfigForPath path).MaxRequests.toNat ts.length) true
        ++ List.replicate (ts.length - (rl.getConfigForPath path).MaxRequests.toNat) false := by
  obtain ⟨_, _, e3, _⟩ := pathChecks_eq_windowRun path ts rl
  rw [e3, hfresh, Option.getD_none]
  exact windowResults_fresh_burst _ _ t0 ts hsorted hhead hwithin

end RateLimiter

/-- C1. For a limiter with a fixed configuration and checks on one key at
non-decreasing clock readings `ts`, starting from a fresh record: each check
(at `now`, after the earlier checks `pre`) returns true exactly when fewer
than `maxEvents` of the earlier admitted readings `t` have `now - t < window`;
and the admitted reading `maxEvents` places after another one is at least
`window` later.  Stated for `isIPAllowed` with the default configuration and
for `isPathAllowed` with the configuration resolved for the path. -/
theorem sliding_window_admission (rl : RateLimiter) (ip path : String) (ts : List Int)
    (hip : rl.ipRequests ip = none) (hpath : rl.pathRequests path = none)
    (hts : List.Pairwise (· ≤ ·) ts) :
    (∀ pre now post, ts = pre ++ now :: post →
      (((rl.ipChecks ip pre).isIPAllowed ip now).1 = true ↔
        ((List.countP (fun t => decide (now - t < rl.defaultConfig.Window))
          (rl.ipAdmitted ip pre) : Nat) : Int) < rl.defaultConfig.MaxRequests))
    ∧ (∀ (i j : Nat) (a b : Int), (rl.ipAdmitted ip ts)[i]? = some a →
        (rl.ipAdmitted ip ts)[j]? = some b → (i : Int) + rl.defaultConfig.MaxRequests = j →
        rl.defaultConfig.Window ≤ b - a)
    ∧ (∀ pre now post, ts = pre ++ now :: post →
      (((rl.pathChecks path pre).isPathAllowed path now).1 = true ↔
        ((List.countP (fun t => decide (now - t < (rl.getConfigForPath path).Window))
          (rl.pathAdmitted path pre) : Nat) : Int) < (rl.getConfigForPath path).MaxRequests))
    ∧ (∀ (i j : Nat) (a b : Int), (rl.pathAdmitted path ts)[i]? = some a →
        (rl.pathAdmitted path ts)[j]? = some b →
        (i : Int) + (rl.getConfigForPath path).MaxRequests = j →
        (rl.getConfigForPath path).Window ≤ b - a) := by
  have hsplit : ∀ pre now post, ts = pre ++ now :: post →
      List.Pairwise (· ≤ ·) (pre ++ [now]) := by
    intro pre now post h
    have h2 : ts = (pre ++ [now]) ++ post := by simp [h]
    rw [h2] at hts
    exact (List.pairwise_append.mp hts).1
  refine ⟨?_, ?_, ?_, ?_⟩
  · intro pre now post h
    obtain ⟨e1, e2, _, e4⟩ := RateLimiter.ipChecks_eq_windowRun ip pre rl
    obtain ⟨s1, _, _⟩ := RateLimiter.isIPAllowed_eq_windowStep (rl.ipChecks ip pre) ip now
    rw [s1, e1, e2, e4, hip]
    exact windowStep_iff_admitted _ _ pre now (hsplit pre now post h)
  · obtain ⟨_, _, _, e4⟩ := RateLimiter.ipChecks_eq_windowRun ip ts rl
    rw [e4, hip]
    exact windowAdmitted_spacing _ _ ts hts
  · intro pre now post h
    obtain ⟨e1, e2, _, e4⟩ := RateLimiter.pathChecks_eq_windowRun path pre rl
    obtain ⟨s1, _, _⟩ := RateLimiter.isPathAllowed_eq_windowStep (rl.pathChecks path pre) path now
    rw [s1, e1, e2, e4, hpath]
    exact windowStep_iff_admitted _ _ pre now (hsplit pre now post h)
  · obtain ⟨_, _, _, e4⟩ := RateLimiter.pathChecks_eq_windowRun path ts rl
    rw [e4, hpath]
    exact windowAdmitted_spacing _ _ ts hts

theorem sliding_window_admission_witness :
    (NewRateLimiter 3 1000 5).ipRequests "1.2.3.4" = none
      ∧ (NewRateLimiter 3 1000 5).pathRequests "/r" = none
      ∧ List.Pairwise (· ≤ ·) [(0 : Int), 1, 2, 3, 1100]
      ∧ (((((NewRateLimiter 3 1000 5).ipChecks "1.2.3.4" [0, 1, 2]).isIPAllowed "1.2.3.4" 3).1
            = true) ↔
          ((List.countP (fun t => decide ((3 : Int) - t < (NewRateLimiter 3 1000 5).defaultConfig.Window))
            ((NewRateLimiter 3 1000 5).ipAdmitted "1.2.3.4" [0, 1, 2]) : Nat) : Int)
            < (NewRateLimiter 3 1000 5).defaultConfig.MaxRequests)
      ∧ (NewRateLimiter 3 1000 5).defaultConfig.Window ≤ 1100 - 0 :=
  ⟨rfl, rfl, by decide,
    (sliding_window_admission (NewRateLimiter 3 1000 5) "1.2.3.4" "/r" [0, 1, 2, 3, 1100]
      rfl rfl (by decide)).1 [0, 1, 2] 3 [1100] rfl,
    (sliding_window_admission (NewRateLimiter 3 1000 5) "1.2.3.4" "/r" [0, 1, 2, 3, 1100]
      rfl rfl (by decide)).2.1 0 3 0 1100 (by decide) (by decide) (by decide)⟩

/-- C2. With `maxEvents = n` and a fresh key, `n + 1` checks at non-decreasing
clock readings that all lie less than `window` after the first one give `n`
times true and then false.  Stated for `isIPAllowed` (default configuration)
and for `isPathAllowed` (configuration resolved for the path). -/
theorem first_n_admitted_next_denied (rl : RateLimiter) (key : String) (n : Nat)
    (ts : List Int) (t0 : Int) (hlen : ts.length = n + 1)
    (hsorted : List.Pairwise (· ≤ ·) ts) (hhead : ts.head? = some t0) :
    (rl.ipRequests key = none → rl.defaultConfig.MaxRequests = (n : Int) →
        (∀ t ∈ ts, t - t0 < rl.defaultConfig.Window) →
        rl.ipResults key ts = List.replicate n true ++ [false])
    ∧ (rl.pathRequests key = none → (rl.getConfigForPath key).MaxRequests = (n : Int) →
        (∀ t ∈ ts, t - t0 < (rl.getConfigForPath key).Window) →
        rl.pathResults key ts = List.replicate n true ++ [false]) := by
  constructor
  · intro hfresh hN hwithin
    rw [RateLimiter.ipResults_fresh_burst rl key ts t0 hfresh hsorted hhead hwithin, hN, hlen]
    simp
  · intro hfresh hN hwithin
    rw [RateLimiter.pathResults_fresh_burst rl key ts t0 hfresh hsorted hhead hwithin, hN, hlen]
    simp

theorem first_n_admitted_next_denied_witness :
    [(0 : Int), 1, 2, 3].length = 3 + 1
      ∧ List.Pairwise (· ≤ ·) [(0 : Int), 1, 2, 3]
      ∧ [(0 : Int), 1, 2, 3].head? = some 0
      ∧ (NewRateLimiter 3 1000 5).ipResults "1.2.3.4" [0, 1, 2, 3] = [true, true, true, false]
      ∧ (NewRateLimiter 3 1000 5).pathResults "/r" [0, 1, 2, 3] = [true, true, true, false] :=
  ⟨rfl, by decide, rfl,
    (first_n_admitted_next_denied (NewRateLimiter 3 1000 5) "1.2.3.4" 3 [0, 1, 2, 3] 0 rfl
      (by decide) rfl).1 rfl rfl (by decide),
    (first_n_admitted_next_denied (NewRateLimiter 3 1000 5) "/r" 3 [0, 1, 2, 3] 0 rfl
      (by decide) rfl).2 rfl rfl (by decide)⟩

/-- C3. With `maxEvents >= 1` and a fresh key, after checks at non-decreasing
clock readings that all lie less than `window` after the first (admitted) one
- of which the first `maxEvents` are admitted and the rest denied - a check
made more than `window` after that first reading returns true. -/
theorem admitted_again_after_window (rl : RateLimiter) (ip : String) (ts : List Int)
    (t0 now : Int) (hfresh : rl.ipRequests ip = none) (hN : 1 ≤ rl.defaultConfig.MaxRequests)
    (hsorted : List.Pairwise (· ≤ ·) ts) (hhead : ts.head? = some t0)
    (hwithin : ∀ t ∈ ts, t - t0 < rl.defaultConfig.Window)
    (hlater : rl.defaultConfig.Window < now - t0) :
    rl.ipResults ip ts
        = List.replicate (min rl.defaultConfig.MaxRequests.toNat ts.length) true
          ++ List.replicate (ts.length - rl.defaultConfig.MaxRequests.toNat) false
      ∧ ((rl.ipChecks ip ts).isIPAllowed ip now).1 = true := by
  obtain ⟨e1, e2, _, _⟩ := RateLimiter.ipChecks_eq_windowRun ip ts rl
  obtain ⟨s1, _, _⟩ := RateLimiter.isIPAllowed_eq_windowStep (rl.ipChecks ip ts) ip now
  constructor
  · exact RateLimiter.ipResults_fresh_burst rl ip ts t0 hfresh hsorted hhead hwithin
  · rw [s1, e1, e2, hfresh, Option.getD_none]
    exact windowStep_after_burst _ _ t0 now ts hN hsorted hhead hwithin hlater

theorem admitted_again_after_window_witness :
    (NewRateLimiter 3 1000000000 300000000000).ipRequests "1.2.3.4" = none
      ∧ (1 : Int) ≤ (NewRateLimiter 3 1000000000 300000000000).defaultConfig.MaxRequests
      ∧ List.Pairwise (· ≤ ·) [(10 : Int), 20, 30, 40]
      ∧ [(10 : Int), 20, 30, 40].head? = some 10
      ∧ (∀ t ∈ [(10 : Int), 20, 30, 40],
          t - 10 < (NewRateLimiter 3 1000000000 300000000000).defaultConfig.Window)
      ∧ (NewRateLimiter 3 1000000000 300000000000).defaultConfig.Window < 1100000040 - 10
      ∧ (NewRateLimiter 3 1000000000 300000000000).ipResults "1.2.3.4" [10, 20, 30, 40]
          = [true, true, true, false]
      ∧ (((NewRateLimiter 3 1000000000 300000000000).ipChecks "1.2.3.4"
          [10, 20, 30, 40]).isIPAllowed "1.2.3.4" 1100000040).1 = true :=
  ⟨rfl, by decide, by decide, rfl, by decide, by decide,
    (admitted_again_after_window (NewRateLimiter 3 1000000000 300000000000) "1.2.3.4"
      [10, 20, 30, 40] 10 1100000040 rfl (by decide) (by decide) rfl (by decide) (by decide)).1,
    (admitted_again_after_window (NewRateLimiter 3 1000000000 300000000000) "1.2.3.4"
      [10, 20, 30, 40] 10 1100000040 rfl (by decide) (by decide) rfl (by decide) (by decide)).2⟩

/-- C4. One admission check at `now` on key `k`: with `pruned` the stored
readings `t` of `k` that satisfy `now - t < window`, in stored order, the
check returns false and stores `pruned` under `k` when
`length pruned >= maxEvents`, and otherwise returns true and stores `pruned`
followed by `now`; nothing else in the limiter changes.  `isIPAllowed` takes
`(maxEvents, window)` from the default configuration and works on the client
table; `isPathAllowed` takes them from the override registered for the path,
or from the default configuration when there is none, and works on the
resource table. -/
theorem admission_check_step (rl : RateLimiter) (k : String) (now : Int) :
    rl.isIPAllowed k now
        = (if rl.defaultConfig.MaxRequests
              ≤ ((((rl.ipRequests k).getD []).filter
                  (fun t => decide (now - t < rl.defaultConfig.Window))).length : Int)
          then (false, { rl with ipRequests := (rl.ipRequests.set k
                  (((rl.ipRequests k).getD []).filter
                    (fun t => decide (now - t < rl.defaultConfig.Window)))) })
          else (true, { rl with ipRequests := (rl.ipRequests.set k
                  (((rl.ipRequests k).getD []).filter
                    (fun t => decide (now - t < rl.defaultConfig.Window)) ++ [now])) }))
      ∧ rl.isPathAllowed k now
        = (if ((rl.pathConfigs k).getD rl.defaultConfig).MaxRequests
              ≤ ((((rl.pathRequests k).getD []).filter
                  (fun t => decide (now - t < ((rl.pathConfigs k).getD rl.defaultConfig).Window))).length
                  : Int)
          then (false, { rl with pathRequests := (rl.pathRequests.set k
                  (((rl.pathRequests k).getD []).filter
                    (fun t => decide (now - t < ((rl.pathConfigs k).getD rl.defaultConfig).Window)))) })
          else (true, { rl with pathRequests := (rl.pathRequests.set k
                  (((rl.pathRequests k).getD []).filter
                    (fun t => decide (now - t < ((rl.pathConfigs k).getD rl.defaultConfig).Window))
                    ++ [now])) })) := by
  have hcfg : rl.getConfigForPath k = (rl.pathConfigs k).getD rl.defaultConfig := by
    unfold RateLimiter.getConfigForPath
    cases rl.pathConfigs k <;> rfl
  constructor
  · unfold RateLimiter.isIPAllowed
    simp only [filterWindow_eq_filter, ge_iff_le]
  · unfold RateLimiter.isPathAllowed
    simp only [filterWindow_eq_filter, ge_iff_le, hcfg]

/-- C5. The window test is strict.  After a check at `now`, the record of the
key holds exactly the earlier readings `t` with `now - t < window` and, when
the check was admitted, `now` itself; so a reading with `now - t = window` is
dropped.  With `maxEvents = 1` and a fresh key, a second check exactly
`window` after the first is admitted, while a second check less than `window`
after the first is denied. -/
theorem window_boundary_is_strict (rl : RateLimiter) (k : String) (now t0 : Int) :
    (((rl.isIPAllowed k now).2.ipRequests k).getD []
        = ((rl.ipRequests k).getD []).filter (fun t => decide (now - t < rl.defaultConfig.Window))
          ++ (if (rl.isIPAllowed k now).1 then [now] else []))
    ∧ (∀ t ∈ ((rl.isIPAllowed k now).2.ipRequests k).getD [], t ≠ now →
        now - t < rl.defaultConfig.Window)
    ∧ (((rl.isPathAllowed k now).2.pathRequests k).getD []
        = ((rl.pathRequests k).getD []).filter
            (fun t => decide (now - t < (rl.getConfigForPath k).Window))
          ++ (if (rl.isPathAllowed k now).1 then [now] else []))
    ∧ (∀ t ∈ ((rl.isPathAllowed k now).2.pathRequests k).getD [], t ≠ now →
        now - t < (rl.getConfigForPath k).Window)
    ∧ (rl.ipRequests k = none → rl.defaultConfig.MaxRequests = 1 →
        rl.ipResults k [t0, t0 + rl.defaultConfig.Window] = [true, true]
          ∧ (now - t0 < rl.defaultConfig.Window → rl.ipResults k [t0, now] = [true, false]))
    ∧ (rl.pathRequests k = none → (rl.getConfigForPath k).MaxRequests = 1 →
        rl.pathResults k [t0, t0 + (rl.getConfigForPath k).Window] = [true, true]
          ∧ (now - t0 < (rl.getConfigForPath k).Window →
              rl.pathResults k [t0, now] = [true, false])) := by
  have hw : ∀ (W u : Int), windowResults 1 W [] [t0, u] = [true, decide (¬ (u - t0 < W))] := by
    intro W u
    by_cases h : u - t0 < W
    · simp [windowResults, windowStep, filterWindow_eq_filter, h]
    · simp [windowResults, windowStep, filterWindow_eq_filter, h]
  have hmem : ∀ (W : Int) (l : List Int) (b : Bool) (t : Int),
      t ∈ l.filter (fun t => decide (now - t < W)) ++ (if b then [now] else []) → t ≠ now →
      now - t < W := by
    intro W l b t ht hne
    rcases List.mem_append.mp ht with h | h
    · simpa using (List.mem_filter.mp h).2
    · cases b
      · simp at h
      · exact absurd (by simpa using h) hne
  have hip : ((rl.isIPAllowed k now).2.ipRequests k).getD []
      = ((rl.ipRequests k).getD []).filter (fun t => decide (now - t < rl.defaultConfig.Window))
        ++ (if (rl.isIPAllowed k now).1 then [now] else []) := by
    obtain ⟨h1, h2, _⟩ := RateLimiter.isIPAllowed_eq_windowStep rl k now
    rw [h2, h1, windowStep_snd, filterWindow_eq_filter]
  have hpa : ((rl.isPathAllowed k now).2.pathRequests k).getD []
      = ((rl.pathRequests k).getD []).filter
          (fun t => decide (now - t < (rl.getConfigForPath k).Window))
        ++ (if (rl.isPathAllowed k now).1 then [now] else []) := by
    obtain ⟨h1, h2, _⟩ := RateLimiter.isPathAllowed_eq_windowStep rl k now
    rw [h2, h1, windowStep_snd, filterWindow_eq_filter]
  refine ⟨hip, ?_, hpa, ?_, ?_, ?_⟩
  · intro t ht hne
    rw [hip] at ht
    exact hmem _ _ _ t ht hne
  · intro t ht hne
    rw [hpa] at ht
    exact hmem _ _ _ t ht hne
  · intro hfresh hN
    have e := fun ts => (RateLimiter.ipChecks_eq_windowRun k ts rl).2.2.1
    constructor
    · rw [e, hfresh, hN, Option.getD_none, hw]
      simp
    · intro hlt
      rw [e, hfresh, hN, Option.getD_none, hw]
      simp [hlt]
  · intro hfresh hN
    have e := fun ts => (RateLimiter.pathChecks_eq_windowRun k ts rl).2.2.1
    constructor
    · rw [e, hfresh, hN, Option.getD_none, hw]
      simp
    · intro hlt
      rw [e, hfresh, hN, Option.getD_none, hw]
      simp [hlt]

theorem window_boundary_is_strict_witness :
    (NewRateLimiter 1 1000 5).ipRequests "1.2.3.4" = none
      ∧ (NewRateLimiter 1 1000 5).defaultConfig.MaxRequests = 1
      ∧ (NewRateLimiter 1 1000 5).ipResults "1.2.3.4"
          [7, 7 + (NewRateLimiter 1 1000 5).defaultConfig.Window] = [true, true]
      ∧ (NewRateLimiter 1 1000 5).ipResults "1.2.3.4" [7, 1006] = [true, false] :=
  ⟨rfl, rfl,
    ((window_boundary_is_strict (NewRateLimiter 1 1000 5) "1.2.3.4" 1006 7).2.2.2.2.1 rfl rfl).1,
    ((window_boundary_is_strict (NewRateLimiter 1 1000 5) "1.2.3.4" 1006 7).2.2.2.2.1 rfl rfl).2
      (by decide)⟩

/-! ### Per-path overrides -/

namespace RateLimiter

theorem getConfigForPath_SetPathConfig_ne (rl : RateLimiter) (p k : String) (n w : Int)
    (hk : k ≠ p) : (rl.SetPathConfig p n w).getConfigForPath k = rl.getConfigForPath k := by
  simp [getConfigForPath, SetPathConfig, GoMap.set, hk]

theorem getConfigForPath_SetPathConfig_self (rl : RateLimiter) (p : String) (n w : Int) :
    (rl.SetPathConfig p n w).getConfigForPath p = { MaxRequests := n, Window := w } := by
  simp [getConfigForPath, SetPathConfig, GoMap.set]

/-- A check on another key commutes with registering an override for `p`. -/
theorem isPathAllowed_SetPathConfig_comm (rl : RateLimiter) (p k : String) (n w now : Int)
    (hk : k ≠ p) :
    ((rl.SetPathConfig p n w).isPathAllowed k now).1 = (rl.isPathAllowed k now).1
      ∧ ((rl.SetPathConfig p n w).isPathAllowed k now).2
        = (rl.isPathAllowed k now).2.SetPathConfig p n w := by
  have hc := getConfigForPath_SetPathConfig_ne rl p k n w hk
  unfold isPathAllowed
  rw [hc]
  simp only []
  have hreq : (rl.SetPathConfig p n w).pathRequests = rl.pathRequests := rfl
  rw [hreq]
  split <;> exact ⟨rfl, rfl⟩

theorem pathResults_SetPathConfig_ne (p k : String) (n w : Int) (hk : k ≠ p) (ts : List Int) :
    ∀ rl : RateLimiter, (rl.SetPathConfig p n w).pathResults k ts = rl.pathResults k ts := by
  induction ts with
  | nil => intro rl; rfl
  | cons t ts ih =>
    intro rl
    obtain ⟨h1, h2⟩ := isPathAllowed_SetPathConfig_comm rl p k n w t hk
    simp only [pathResults]
    rw [h1, h2, ih]

end RateLimiter

/-- C6. After `SetPathConfig("/r", 5, 1s)`, six `isPathAllowed("/r")` checks on
a fresh record at non-decreasing readings within one second of the first
return true five times and then false, whatever the default configuration
(for instance one allowing 100 events).  For every other resource key the
check returns the same decision, along any sequence of checks, as on the
limiter without the override, and an unregistered key still resolves to the
default configuration. -/
theorem path_override_is_independent (rl : RateLimiter) :
    (∀ (ts : List Int) (t0 : Int), rl.pathRequests "/r" = none → ts.length = 6 →
        List.Pairwise (· ≤ ·) ts → ts.head? = some t0 → (∀ t ∈ ts, t - t0 < 1000000000) →
        (rl.SetPathConfig "/r" 5 1000000000).pathResults "/r" ts
          = [true, true, true, true, true, false])
    ∧ (∀ (k : String) (now : Int), k ≠ "/r" →
        ((rl.SetPathConfig "/r" 5 1000000000).isPathAllowed k now).1 = (rl.isPathAllowed k now).1
        ∧ ((rl.SetPathConfig "/r" 5 1000000000).isPathAllowed k now).2
            = (rl.isPathAllowed k now).2.SetPathConfig "/r" 5 1000000000)
    ∧ (∀ (k : String) (ts : List Int), k ≠ "/r" →
        (rl.SetPathConfig "/r" 5 1000000000).pathResults k ts = rl.pathResults k ts)
    ∧ (∀ k : String, k ≠ "/r" → rl.pathConfigs k = none →
        (rl.SetPathConfig "/r" 5 1000000000).getConfigForPath k = rl.defaultConfig) := by
  refine ⟨?_, ?_, ?_, ?_⟩
  · intro ts t0 hfresh hlen hsorted hhead hwithin
    have hcfg := RateLimiter.getConfigForPath_SetPathConfig_self rl "/r" 5 1000000000
    have hfresh2 : (rl.SetPathConfig "/r" 5 1000000000).pathRequests "/r" = none := hfresh
    have h := RateLimiter.pathResults_fresh_burst (rl.SetPathConfig "/r" 5 1000000000) "/r" ts t0
      hfresh2 hsorted hhead (by rw [hcfg]; exact hwithin)
    rw [h, hcfg, hlen]
    rfl
  · intro k now hk
    exact RateLimiter.isPathAllowed_SetPathConfig_comm rl "/r" k 5 1000000000 now hk
  · intro k ts hk
    exact RateLimiter.pathResults_SetPathConfig_ne "/r" k 5 1000000000 hk ts rl
  · intro k hk hnone
    rw [RateLimiter.getConfigForPath_SetPathConfig_ne rl "/r" k 5 1000000000 hk]
    simp [RateLimiter.getConfigForPath, hnone]

theorem path_override_is_independent_witness :
    (NewRateLimiter 100 60000000000 300000000000).pathRequests "/r" = none
      ∧ [(0 : Int), 1, 2, 3, 4, 5].length = 6
      ∧ List.Pairwise (· ≤ ·) [(0 : Int), 1, 2, 3, 4, 5]
      ∧ [(0 : Int), 1, 2, 3, 4, 5].head? = some 0
      ∧ (∀ t ∈ [(0 : Int), 1, 2, 3, 4, 5], t - 0 < 1000000000)
      ∧ ((NewRateLimiter 100 60000000000 300000000000).SetPathConfig "/r" 5
            1000000000).pathResults "/r" [0, 1, 2, 3, 4, 5]
          = [true, true, true, true, true, false]
      ∧ ((NewRateLimiter 100 60000000000 300000000000).SetPathConfig "/r" 5
            1000000000).pathResults "/other" [0, 1, 2, 3, 4, 5]
          = (NewRateLimiter 100 60000000000 300000000000).pathResults "/other"
              [0, 1, 2, 3, 4, 5] :=
  ⟨rfl, rfl, by decide, rfl, by decide,
    (path_override_is_independent (NewRateLimiter 100 60000000000 300000000000)).1
      [0, 1, 2, 3, 4, 5] 0 rfl rfl (by decide) rfl (by decide),
    (path_override_is_independent (NewRateLimiter 100 60000000000 300000000000)).2.2.1
      "/other" [0, 1, 2, 3, 4, 5] (by decide)⟩

end middleware

/-! ## The expiring cache -/

namespace cache

theorem wrapInt64_of_inRange (n : Int) (h1 : -2 ^ 63 ≤ n) (h2 : n < 2 ^ 63) :
    wrapInt64 n = n := by
  unfold wrapInt64
  omega

theorem wrapInt64_of_overflow (n : Int) (h1 : 2 ^ 63 ≤ n) (h2 : n < 2 ^ 64) :
    wrapInt64 n = n - 2 ^ 64 := by
  unfold wrapInt64
  omega

namespace Cache

theorem Set_items_self (c : Cache) (key : String) (value : Value) (duration now : Int) :
    (c.Set key value duration now).items key
      = some { Value := value, Expiration := wrapInt64 (now + duration) } := by
  simp [Set, GoMap.set]

theorem Get_of_items (c : Cache) (key : String) (now : Int) (item : Item)
    (h : c.items key = some item) :
    c.Get key now
      = if item.Expiration > 0 ∧ now > item.Expiration then (Value.nil, false)
        else (item.Value, true) := by
  simp [Get, h]

theorem cleanupRoutine_Get (c : Cache) (key : String) (s now : Int) (hs : s ≤ now) :
    (c.cleanupRoutine s).Get key now = c.Get key now := by
  unfold Get cleanupRoutine
  cases h : c.items key with
  | none => simp [h]
  | some item =>
    by_cases hx : item.Expiration > 0 ∧ s > item.Expiration
    · have : item.Expiration > 0 ∧ now > item.Expiration := ⟨hx.1, by omega⟩
      simp only [h, hx, this]
      simp
    · simp only [h, hx]
      simp

end Cache

/-- C7. For every key, value and `ttl > 0`, with the clock at or after the
Unix epoch: after `Set(key, value, ttl)` at `t0`, `Get(key)` at the same
instant returns `(value, true)`, and `Get(key)` at any reading later than
`t0 + ttl` returns `(nil, false)`; both also when a sweep has run in
between. -/
theorem set_get_ttl_round_trip (c : Cache) (key : String) (value : Value) (ttl t0 : Int)
    (httl : 0 < ttl) (httl64 : ttl < 2 ^ 63) (ht0 : 0 ≤ t0) (ht064 : t0 < 2 ^ 63) :
    (c.Set key value ttl t0).Get key t0 = (value, true)
      ∧ ((c.Set key value ttl t0).cleanupRoutine t0).Get key t0 = (value, true)
      ∧ (∀ t : Int, t0 + ttl < t → t < 2 ^ 63 →
          (c.Set key value ttl t0).Get key t = (Value.nil, false)
          ∧ ∀ s : Int, s ≤ t → ((c.Set key value ttl t0).cleanupRoutine s).Get key t
              = (Value.nil, false)) := by
  have hitem := Cache.Set_items_self c key value ttl t0
  have hnow : (c.Set key value ttl t0).Get key t0 = (value, true) := by
    rw [Cache.Get_of_items _ key t0 _ hitem]
    have : ¬ (wrapInt64 (t0 + ttl) > 0 ∧ t0 > wrapInt64 (t0 + ttl)) := by
      by_cases hov : t0 + ttl < 2 ^ 63
      · rw [wrapInt64_of_inRange _ (by omega) hov]
        omega
      · rw [wrapInt64_of_overflow _ (by omega) (by omega)]
        omega
    simp [this]
  have hlater : ∀ t : Int, t0 + ttl < t → t < 2 ^ 63 →
      (c.Set key value ttl t0).Get key t = (Value.nil, false) := by
    intro t h1 h2
    rw [Cache.Get_of_items _ key t _ hitem, wrapInt64_of_inRange _ (by omega) (by omega)]
    have : t0 + ttl > 0 ∧ t > t0 + ttl := ⟨by omega, by omega⟩
    simp [this]
  refine ⟨hnow, ?_, ?_⟩
  · rw [Cache.cleanupRoutine_Get _ key t0 t0 (le_refl _)]
    exact hnow
  · intro t h1 h2
    refine ⟨hlater t h1 h2, ?_⟩
    intro s hs
    rw [Cache.cleanupRoutine_Get _ key s t hs]
    exact hlater t h1 h2

theorem set_get_ttl_round_trip_witness :
    (0 : Int) < 100000000 ∧ (100000000 : Int) < 2 ^ 63 ∧ (0 : Int) ≤ 1700000000000000000
      ∧ (1700000000000000000 : Int) < 2 ^ 63
      ∧ (NewCache.Set "x" (Value.num 42) 100000000 1700000000000000000).Get "x"
          1700000000000000000 = (Value.num 42, true)
      ∧ (NewCache.Set "x" (Value.num 42) 100000000 1700000000000000000).Get "x"
          1700000000150000000 = (Value.nil, false) :=
  ⟨by decide, by decide, by decide, by decide,
    (set_get_ttl_round_trip NewCache "x" (Value.num 42) 100000000 1700000000000000000
      (by decide) (by decide) (by decide) (by decide)).1,
    ((set_get_ttl_round_trip NewCache "x" (Value.num 42) 100000000 1700000000000000000
      (by decide) (by decide) (by decide) (by decide)).2.2 1700000000150000000
      (by decide) (by decide)).1⟩

/-- C8, as stated, fails: an entry written with `ttl = 0` is reported as not
found one nanosecond later. -/
theorem zero_ttl_entry_expires :
    (NewCache.Set "k" (Value.num 42) 0 1700000000000000000).Get "k" 1700000000000000001
        = (Value.nil, false)
      ∧ ¬ ((NewCache.Set "k" (Value.num 42) 0 1700000000000000000).Get "k" 1700000000000000001
        = (Value.num 42, true)) := by
  have h : (NewCache.Set "k" (Value.num 42) 0 1700000000000000000).Get "k" 1700000000000000001
      = (Value.nil, false) := by
    have hw : wrapInt64 (1700000000000000000 + 0) = 1700000000000000000 := by decide
    rw [Cache.Get_of_items _ "k" _ _ (Cache.Set_items_self _ _ _ _ _), hw]
    simp
  refine ⟨h, ?_⟩
  rw [h]
  simp

/-- C8, amended. `Set` stores the expiration `now + ttl` whatever the sign of
`ttl`.  With `ttl <= 0` and that instant after the Unix epoch, `Get(key)` at
every later reading returns `(nil, false)`.  Only an entry whose stored
expiration is not positive never expires: `Get` returns it at every
reading. -/
theorem nonpositive_ttl_expires_at_once (c : Cache) (key : String) (value : Value)
    (ttl t0 : Int) (httl : ttl ≤ 0) (hpos : 0 < t0 + ttl) (ht064 : t0 < 2 ^ 63) :
    (c.Set key value ttl t0).items key = some { Value := value, Expiration := t0 + ttl }
      ∧ (∀ t : Int, t0 < t → (c.Set key value ttl t0).Get key t = (Value.nil, false))
      ∧ (∀ (c1 : Cache) (item : Item), c1.items key = some item → item.Expiration ≤ 0 →
          ∀ t : Int, c1.Get key t = (item.Value, true)) := by
  have hitem := Cache.Set_items_self c key value ttl t0
  rw [wrapInt64_of_inRange _ (by omega) (by omega)] at hitem
  refine ⟨hitem, ?_, ?_⟩
  · intro t ht
    rw [Cache.Get_of_items _ key t _ hitem]
    have : t0 + ttl > 0 ∧ t > t0 + ttl := ⟨by omega, by omega⟩
    simp [this]
  · intro c1 item h1 h2 t
    rw [Cache.Get_of_items _ key t _ h1]
    have : ¬ (item.Expiration > 0 ∧ t > item.Expiration) := by omega
    simp [this]

theorem nonpositive_ttl_expires_at_once_witness :
    (0 : Int) ≤ 0 ∧ (0 : Int) < 1700000000000000000 + 0 ∧ (1700000000000000000 : Int) < 2 ^ 63
      ∧ (NewCache.Set "k" (Value.num 42) 0 1700000000000000000).Get "k" 1700000000000000001
        = (Value.nil, false) :=
  ⟨by decide, by decide, by decide,
    (nonpositive_ttl_expires_at_once NewCache "k" (Value.num 42) 0 1700000000000000000
      (by decide) (by decide) (by decide)).2.1 1700000000000000001 (by decide)⟩

/-- C9, as stated, fails at the boundary: an entry read at exactly
`now = expiresAt` is found, although its expiration is positive and `now` is
not before it. -/
theorem entry_found_at_expiration_instant :
    ((NewCache.Set "k" (Value.num 1) 100 1700000000000000000).Get "k" 1700000000000000100).2
        = true
      ∧ ¬ (∃ item : Item,
          (NewCache.Set "k" (Value.num 1) 100 1700000000000000000).items "k" = some item
            ∧ (item.Expiration ≤ 0 ∨ 1700000000000000100 < item.Expiration)) := by
  have hitem := Cache.Set_items_self NewCache "k" (Value.num 1) 100 1700000000000000000
  have hw : wrapInt64 (1700000000000000000 + 100) = 1700000000000000100 := by decide
  rw [hw] at hitem
  constructor
  · rw [Cache.Get_of_items _ "k" _ _ hitem]
    simp
  · rintro ⟨item, h1, h2⟩
    rw [hitem] at h1
    cases h1
    simp at h2

/-- C9, amended. `Get(key)` at `now` returns found exactly when the table
holds an entry for `key` whose expiration is not positive (no expiry) or
satisfies `now <= expiresAt`, and then returns its value; `SafeGetString`
reports found exactly when, in addition, the stored value is a string.  An
entry read at exactly `now = expiresAt` is still present. -/
theorem get_found_iff (c : Cache) (key : String) (now : Int) :
    ((c.Get key now).2 = true ↔
        ∃ item : Item, c.items key = some item
          ∧ (item.Expiration ≤ 0 ∨ now ≤ item.Expiration))
      ∧ (∀ item : Item, c.items key = some item →
          (item.Expiration ≤ 0 ∨ now ≤ item.Expiration) → c.Get key now = (item.Value, true))
      ∧ ((c.Get key now).2 = false → c.Get key now = (Value.nil, false))
      ∧ ((c.SafeGetString key now).2 = true ↔
        ∃ (item : Item) (str : String), c.items key = some item
          ∧ (item.Expiration ≤ 0 ∨ now ≤ item.Expiration) ∧ item.Value = Value.str str) := by
  cases h : c.items key with
  | none => simp [Cache.Get, Cache.SafeGetString, h]
  | some item =>
    by_cases hx : item.Expiration > 0 ∧ now > item.Expiration
    · have hneg : ¬ (item.Expiration ≤ 0 ∨ now ≤ item.Expiration) := by omega
      simp only [Cache.Get, Cache.SafeGetString, h]
      rw [if_pos hx, if_pos hx]
      have h1 : 0 < item.Expiration := hx.1
      have h2 : item.Expiration < now := hx.2
      simp [h1, h2]
    · have hpos : item.Expiration ≤ 0 ∨ now ≤ item.Expiration := by omega
      simp only [Cache.Get, Cache.SafeGetString, h]
      rw [if_neg hx, if_neg hx]
      refine ⟨by simp [hpos], by simp, by simp, ?_⟩
      cases hv : item.Value <;> simp [hpos, hv]

theorem get_found_iff_witness :
    (NewCache.Set "k" (Value.num 1) 100 1700000000000000000).items "k"
        = some { Value := Value.num 1, Expiration := 1700000000000000100 }
      ∧ ((1700000000000000100 : Int) ≤ 0
          ∨ (1700000000000000100 : Int) ≤ 1700000000000000100)
      ∧ (NewCache.Set "k" (Value.num 1) 100 1700000000000000000).Get "k" 1700000000000000100
        = (Value.num 1, true) :=
  have hitem : (NewCache.Set "k" (Value.num 1) 100 1700000000000000000).items "k"
      = some { Value := Value.num 1, Expiration := 1700000000000000100 } := by
    rw [Cache.Set_items_self]
    have hw : wrapInt64 (1700000000000000000 + 100) = 1700000000000000100 := by decide
    rw [hw]
  ⟨hitem, Or.inr (le_refl _),
    (get_found_iff (NewCache.Set "k" (Value.num 1) 100 1700000000000000000) "k"
      1700000000000000100).2.1 _ hitem (Or.inr (le_refl _))⟩

/-- The entry of `k` is untouched by writes addressed to other keys. -/
theorem applyWrites_items_of_ne (json : JSONCodec) (k : String) (ws : List Write) :
    ∀ c : Cache, (∀ w ∈ ws, w.key ≠ k) → (applyWrites json c ws).items k = c.items k := by
  induction ws with
  | nil => intro c _; rfl
  | cons w ws ih =>
    intro c hws
    have hw : w.key ≠ k := hws w (by simp)
    have hrest : ∀ w ∈ ws, w.key ≠ k := fun w h => hws w (by simp [h])
    cases w with
    | set key value duration now =>
      have hk : ¬ (k = key) := fun e => hw e.symm
      simp only [applyWrites]
      rw [ih _ hrest]
      simp [Cache.Set, GoMap.set, hk]
    | safeSet key value duration now =>
      have hk : ¬ (k = key) := fun e => hw e.symm
      simp only [applyWrites]
      rw [ih _ hrest]
      unfold Cache.SafeSet
      cases h1 : json.Marshal value with
      | none => simp
      | some jsonBytes =>
        cases h2 : json.Unmarshal jsonBytes with
        | none => simp [h2]
        | some sanitizedValue => simp [h2, GoMap.set, hk]

/-- C10. After any sequence of `Set` and `SafeSet` calls, `Flush()` leaves the
table empty: for every key and every clock reading `Get` returns
`(nil, false)` and `SafeGetString` returns `("", false)`, and this stays so
for a key across later writes addressed to other keys. -/
theorem flush_clears_everything (json : JSONCodec) (c : Cache) (ws : List Write) (k : String)
    (now : Int) :
    (applyWrites json c ws).Flush.items k = none
      ∧ (applyWrites json c ws).Flush.Get k now = (Value.nil, false)
      ∧ (applyWrites json c ws).Flush.SafeGetString k now = ("", false)
      ∧ (∀ later : List Write, (∀ w ∈ later, w.key ≠ k) →
          (applyWrites json (applyWrites json c ws).Flush later).Get k now = (Value.nil, false)
          ∧ (applyWrites json (applyWrites json c ws).Flush later).SafeGetString k now
              = ("", false)) := by
  have h0 : (applyWrites json c ws).Flush.items k = none := rfl
  refine ⟨h0, by simp [Cache.Get, h0], by simp [Cache.SafeGetString, h0], ?_⟩
  intro later hlater
  have h1 := applyWrites_items_of_ne json k later (applyWrites json c ws).Flush hlater
  rw [h0] at h1
  exact ⟨by simp [Cache.Get, h1], by simp [Cache.SafeGetString, h1]⟩

theorem flush_clears_everything_witness :
    (∀ w ∈ [Write.set "b" (Value.num 7) 100 1700000000000000001], w.key ≠ "a")
      ∧ (applyWrites { Marshal := fun _ => some [], Unmarshal := fun _ => some Value.nil }
          (applyWrites { Marshal := fun _ => some [], Unmarshal := fun _ => some Value.nil }
            NewCache
            [Write.set "a" (Value.num 42) 100 1700000000000000000,
              Write.safeSet "b" (Value.str "x") 100 1700000000000000000]).Flush
          [Write.set "b" (Value.num 7) 100 1700000000000000001]).Get "a" 1700000000000000002
        = (Value.nil, false) :=
  ⟨by simp [Write.key],
    ((flush_clears_everything { Marshal := fun _ => some [], Unmarshal := fun _ => some Value.nil }
      NewCache
      [Write.set "a" (Value.num 42) 100 1700000000000000000,
        Write.safeSet "b" (Value.str "x") 100 1700000000000000000]
      "a" 1700000000000000002).2.2.2
      [Write.set "b" (Value.num 7) 100 1700000000000000001] (by simp [Write.key])).1⟩

/-! ### `Delete`, `SafeSet` and `SafeGetString` -/

namespace Cache

theorem SafeGetString_of_items (c : Cache) (key : String) (now : Int) (item : Item)
    (h : c.items key = some item) :
    c.SafeGetString key now
      = if item.Expiration > 0 ∧ now > item.Expiration then ("", false)
        else
          match item.Value with
          | Value.str strValue => (SanitizeString strValue, true)
          | _ => ("", false) := by
  simp only [SafeGetString, h]

theorem SafeSet_of_round_trip (json : JSONCodec) (c : Cache) (key : String)
    (value decoded : Value) (duration now : Int) (bytes : List Nat)
    (hm : json.Marshal value = some bytes) (hu : json.Unmarshal bytes = some decoded) :
    c.SafeSet json key value duration now = c.Set key decoded duration now := by
  simp only [SafeSet, Set, hm, hu]

theorem cleanupRoutine_SafeGetString (c : Cache) (key : String) (s now : Int) (hs : s ≤ now) :
    (c.cleanupRoutine s).SafeGetString key now = c.SafeGetString key now := by
  unfold SafeGetString cleanupRoutine
  cases h : c.items key with
  | none => simp [h]
  | some item =>
    by_cases hx : item.Expiration > 0 ∧ s > item.Expiration
    · have : item.Expiration > 0 ∧ now > item.Expiration := ⟨hx.1, by omega⟩
      simp only [h, hx, this]
      simp
    · simp only [h, hx]
      simp

end Cache

/-- C11. `Delete(key)` removes the entry for `key`, so that a following
`Get(key)` returns `(nil, false)` at every clock reading; when `key` has no
entry the table is unchanged; and the entry of every other key is
unchanged. -/
theorem delete_removes_only_key (c : Cache) (key : String) (now : Int) :
    (c.Delete key).items key = none
      ∧ (c.Delete key).Get key now = (Value.nil, false)
      ∧ (c.items key = none → c.Delete key = c)
      ∧ (∀ k : String, k ≠ key → (c.Delete key).items k = c.items k) := by
  have h0 : (c.Delete key).items key = none := by simp [Cache.Delete, GoMap.delete]
  refine ⟨h0, by simp [Cache.Get, h0], ?_, ?_⟩
  · intro habs
    cases c with
    | mk items =>
      simp only [Cache.Delete, Cache.mk.injEq]
      funext k
      by_cases hk : k = key
      · subst hk
        simpa [GoMap.delete] using habs.symm
      · simp [GoMap.delete, hk]
  · intro k hk
    simp [Cache.Delete, GoMap.delete, hk]

theorem delete_removes_only_key_witness :
    (NewCache.Set "a" (Value.num 1) 100 1700000000000000000).items "b" = none
      ∧ "a" ≠ "b"
      ∧ (NewCache.Set "a" (Value.num 1) 100 1700000000000000000).Delete "b"
        = NewCache.Set "a" (Value.num 1) 100 1700000000000000000
      ∧ ((NewCache.Set "a" (Value.num 1) 100 1700000000000000000).Delete "b").items "a"
        = (NewCache.Set "a" (Value.num 1) 100 1700000000000000000).items "a" :=
  ⟨rfl, by decide,
    (delete_removes_only_key (NewCache.Set "a" (Value.num 1) 100 1700000000000000000) "b"
      0).2.2.1 rfl,
    (delete_removes_only_key (NewCache.Set "a" (Value.num 1) 100 1700000000000000000) "b"
      0).2.2.2 "a" (by decide)⟩

/-- C12. `SafeSet` has no error result, and when `json.Marshal(value)` fails
or `json.Unmarshal` of the serialised bytes fails, the cache after the call is
the cache before it (every entry, that of `key` included, keeps its value and
expiration).  When both steps succeed it is `Set` of the decoded value. -/
theorem safeset_failure_is_noop (json : JSONCodec) (c : Cache) (key : String) (value : Value)
    (duration now : Int) :
    (json.Marshal value = none → c.SafeSet json key value duration now = c)
      ∧ (∀ bytes : List Nat, json.Marshal value = some bytes → json.Unmarshal bytes = none →
          c.SafeSet json key value duration now = c)
      ∧ (∀ (bytes : List Nat) (decoded : Value), json.Marshal value = some bytes →
          json.Unmarshal bytes = some decoded →
          c.SafeSet json key value duration now = c.Set key decoded duration now) := by
  refine ⟨?_, ?_, ?_⟩
  · intro hm
    simp only [Cache.SafeSet, hm]
  · intro bytes hm hu
    simp only [Cache.SafeSet, hm, hu]
  · intro bytes decoded hm hu
    exact Cache.SafeSet_of_round_trip json c key value decoded duration now bytes hm hu

theorem safeset_failure_is_noop_witness :
    codePointCodec.Marshal (Value.num 42) = none
      ∧ (NewCache.Set "k" (Value.str "old") 100 1700000000000000000).SafeSet codePointCodec "k"
          (Value.num 42) 100 1700000000000000001
        = NewCache.Set "k" (Value.str "old") 100 1700000000000000000 :=
  ⟨rfl,
    (safeset_failure_is_noop codePointCodec
      (NewCache.Set "k" (Value.str "old") 100 1700000000000000000) "k" (Value.num 42) 100
      1700000000000000001).1 rfl⟩

namespace Cache

/-- Straight after a write with a positive `ttl`, at the clock reading of the
write, the entry is not expired. -/
theorem Set_fresh_not_expired (ttl now : Int) (httl : 0 < ttl) (httl64 : ttl < 2 ^ 63)
    (hlo : -2 ^ 63 ≤ now) (hhi : now < 2 ^ 63) :
    ¬ (wrapInt64 (now + ttl) > 0 ∧ now > wrapInt64 (now + ttl)) := by
  by_cases hov : now + ttl < 2 ^ 63
  · rw [wrapInt64_of_inRange _ (by omega) hov]
    omega
  · rw [wrapInt64_of_overflow _ (by omega) (by omega)]
    omega

end Cache

theorem escapeChar_no_markup (c x : Char) (hx : x ∈ escapeChar c) :
    x ≠ '<' ∧ x ≠ '>' ∧ x ≠ Char.ofNat 39 ∧ x ≠ Char.ofNat 34 := by
  unfold escapeChar at hx
  split_ifs at hx with h1 h2 h3 h4 h5
  · have : x ∈ ['&', 'a', 'm', 'p', ';'] := hx
    simp only [List.mem_cons, List.mem_singleton, List.not_mem_nil, or_false] at this
    rcases this with rfl | rfl | rfl | rfl | rfl <;> decide
  · have : x ∈ ['&', '#', '3', '9', ';'] := hx
    simp only [List.mem_cons, List.mem_singleton, List.not_mem_nil, or_false] at this
    rcases this with rfl | rfl | rfl | rfl | rfl <;> decide
  · have : x ∈ ['&', 'l', 't', ';'] := hx
    simp only [List.mem_cons, List.mem_singleton, List.not_mem_nil, or_false] at this
    rcases this with rfl | rfl | rfl | rfl <;> decide
  · have : x ∈ ['&', 'g', 't', ';'] := hx
    simp only [List.mem_cons, List.mem_singleton, List.not_mem_nil, or_false] at this
    rcases this with rfl | rfl | rfl | rfl <;> decide
  · have : x ∈ ['&', '#', '3', '4', ';'] := hx
    simp only [List.mem_cons, List.mem_singleton, List.not_mem_nil, or_false] at this
    rcases this with rfl | rfl | rfl | rfl | rfl <;> decide
  · have : x = c := by simpa using hx
    subst this
    exact ⟨h3, h4, h2, h5⟩

theorem htmlEscapeString_no_markup (s : String) (x : Char)
    (hx : x ∈ (htmlEscapeString s).toList) :
    x ≠ '<' ∧ x ≠ '>' ∧ x ≠ Char.ofNat 39 ∧ x ≠ Char.ofNat 34 := by
  have hx2 : x ∈ (s.toList.map escapeChar).flatten := hx
  simp only [List.mem_flatten, List.mem_map] at hx2
  obtain ⟨l, ⟨c, _, rfl⟩, hxl⟩ := hx2
  exact escapeChar_no_markup c x hxl

/-- C13. For every string `s` (which `encoding/json` gives back unchanged
from its round trip) and `ttl > 0`, `SafeSet(k, s, ttl)` followed at once by
`SafeGetString(k)` returns `(e, true)` with `e` the HTML-escaped form of `s`,
in which none of `<`, `>`, the apostrophe and the double quote is left.
`SafeGetString` escapes whatever string is stored and not expired, also one
that was escaped before it was written. -/
theorem safeset_then_safegetstring_escapes (json : JSONCodec) (c : Cache) (k s : String)
    (ttl now : Int) (bytes : List Nat) (hm : json.Marshal (Value.str s) = some bytes)
    (hu : json.Unmarshal bytes = some (Value.str s)) (httl : 0 < ttl) (httl64 : ttl < 2 ^ 63)
    (hlo : -2 ^ 63 ≤ now) (hhi : now < 2 ^ 63) :
    (c.SafeSet json k (Value.str s) ttl now).SafeGetString k now = (htmlEscapeString s, true)
      ∧ (∀ x ∈ (htmlEscapeString s).toList,
          x ≠ '<' ∧ x ≠ '>' ∧ x ≠ Char.ofNat 39 ∧ x ≠ Char.ofNat 34)
      ∧ (∀ (c1 : Cache) (item : Item) (stored : String) (t : Int), c1.items k = some item →
          item.Value = Value.str stored → (item.Expiration ≤ 0 ∨ t ≤ item.Expiration) →
          c1.SafeGetString k t = (htmlEscapeString stored, true)) := by
  refine ⟨?_, fun x hx => htmlEscapeString_no_markup s x hx, ?_⟩
  · rw [Cache.SafeSet_of_round_trip json c k _ _ ttl now bytes hm hu,
      Cache.SafeGetString_of_items _ k now _ (Cache.Set_items_self c k _ ttl now),
      if_neg (Cache.Set_fresh_not_expired ttl now httl httl64 hlo hhi)]
    rfl
  · intro c1 item stored t hitem hval hlive
    have hne : ¬ (item.Expiration > 0 ∧ t > item.Expiration) := by omega
    rw [Cache.SafeGetString_of_items c1 k t item hitem, if_neg hne, hval]
    rfl

theorem safeset_then_safegetstring_escapes_witness :
    codePointCodec.Marshal (Value.str "<script>alert(1)</script>")
        = some ("<script>alert(1)</script>".toList.map Char.toNat)
      ∧ codePointCodec.Unmarshal ("<script>alert(1)</script>".toList.map Char.toNat)
        = some (Value.str "<script>alert(1)</script>")
      ∧ (0 : Int) < 60000000000 ∧ (60000000000 : Int) < 2 ^ 63
      ∧ (-2 ^ 63 : Int) ≤ 1700000000000000000 ∧ (1700000000000000000 : Int) < 2 ^ 63
      ∧ (NewCache.SafeSet codePointCodec "k" (Value.str "<script>alert(1)</script>") 60000000000
          1700000000000000000).SafeGetString "k" 1700000000000000000
        = ("&lt;script&gt;alert(1)&lt;/script&gt;", true) :=
  ⟨rfl, rfl, by decide, by decide, by decide, by decide,
    (safeset_then_safegetstring_escapes codePointCodec NewCache "k" "<script>alert(1)</script>"
      60000000000 1700000000000000000 _ rfl rfl (by decide) (by decide) (by decide)
      (by decide)).1.trans (by decide)⟩

/-- C14. `SafeGetString(key)` returns `("", false)` whenever `Get(key)` reports
not found, and also whenever the value stored under `key` is not a string,
although `Get(key)` then returns that value with found = true (while the
entry is live). -/
theorem safegetstring_requires_string (c : Cache) (key : String) (now : Int) :
    ((c.Get key now).2 = false → c.SafeGetString key now = ("", false))
      ∧ (∀ item : Item, c.items key = some item → (∀ str : String, item.Value ≠ Value.str str) →
          c.SafeGetString key now = ("", false)
          ∧ ((item.Expiration ≤ 0 ∨ now ≤ item.Expiration) →
              c.Get key now = (item.Value, true))) := by
  constructor
  · intro hget
    cases h : c.items key with
    | none => simp [Cache.SafeGetString, h]
    | some item =>
      rw [Cache.Get_of_items c key now item h] at hget
      rw [Cache.SafeGetString_of_items c key now item h]
      by_cases hx : item.Expiration > 0 ∧ now > item.Expiration
      · rw [if_pos hx]
      · rw [if_neg hx] at hget
        simp at hget
  · intro item hitem hns
    constructor
    · rw [Cache.SafeGetString_of_items c key now item hitem]
      by_cases hx : item.Expiration > 0 ∧ now > item.Expiration
      · rw [if_pos hx]
      · rw [if_neg hx]
        cases hv : item.Value with
        | str strValue => exact absurd hv (hns strValue)
        | _ => rfl
    · intro hlive
      have hne : ¬ (item.Expiration > 0 ∧ now > item.Expiration) := by omega
      rw [Cache.Get_of_items c key now item hitem, if_neg hne]

theorem safegetstring_requires_string_witness :
    (NewCache.Set "n" (Value.num 42) 100 1700000000000000000).items "n"
        = some { Value := Value.num 42, Expiration := 1700000000000000100 }
      ∧ (∀ str : String, Value.num 42 ≠ Value.str str)
      ∧ ((1700000000000000100 : Int) ≤ 0
          ∨ (1700000000000000000 : Int) ≤ 1700000000000000100)
      ∧ (NewCache.Set "n" (Value.num 42) 100 1700000000000000000).SafeGetString "n"
          1700000000000000000 = ("", false)
      ∧ (NewCache.Set "n" (Value.num 42) 100 1700000000000000000).Get "n" 1700000000000000000
        = (Value.num 42, true) :=
  have hitem : (NewCache.Set "n" (Value.num 42) 100 1700000000000000000).items "n"
      = some { Value := Value.num 42, Expiration := 1700000000000000100 } := by
    rw [Cache.Set_items_self]
    have hw : wrapInt64 (1700000000000000000 + 100) = 1700000000000000100 := by decide
    rw [hw]
  ⟨hitem, fun _ h => Value.noConfusion h, Or.inr (by decide),
    ((safegetstring_requires_string (NewCache.Set "n" (Value.num 42) 100 1700000000000000000)
      "n" 1700000000000000000).2 _ hitem (fun _ h => Value.noConfusion h)).1,
    ((safegetstring_requires_string (NewCache.Set "n" (Value.num 42) 100 1700000000000000000)
      "n" 1700000000000000000).2 _ hitem (fun _ h => Value.noConfusion h)).2
      (Or.inr (by decide))⟩

/-- C17. The cache sweep is not needed for reads: for clock readings
`s <= now`, `Get(key)` and `SafeGetString(key)` at `now` return the same on
the table swept at `s` as on the original table.  The sweep leaves every
entry as it is or removes it, and an entry it removes is one that every read
from `s` on reports as not found. -/
theorem cache_sweep_not_needed (c : Cache) (key : String) (s now : Int) (hs : s ≤ now) :
    (c.cleanupRoutine s).Get key now = c.Get key now
      ∧ (c.cleanupRoutine s).SafeGetString key now = c.SafeGetString key now
      ∧ ((c.cleanupRoutine s).items key = c.items key
          ∨ ((c.cleanupRoutine s).items key = none
              ∧ ∀ t : Int, s ≤ t →
                  c.Get key t = (Value.nil, false) ∧ c.SafeGetString key t = ("", false))) := by
  refine ⟨Cache.cleanupRoutine_Get c key s now hs,
    Cache.cleanupRoutine_SafeGetString c key s now hs, ?_⟩
  cases h : c.items key with
  | none =>
    left
    simp [Cache.cleanupRoutine, h]
  | some item =>
    by_cases hx : item.Expiration > 0 ∧ s > item.Expiration
    · right
      constructor
      · simp only [Cache.cleanupRoutine, h, hx]
        simp
      · intro t ht
        have hxt : item.Expiration > 0 ∧ t > item.Expiration := ⟨hx.1, by omega⟩
        rw [Cache.Get_of_items c key t item h, Cache.SafeGetString_of_items c key t item h,
          if_pos hxt, if_pos hxt]
        exact ⟨rfl, rfl⟩
    · left
      simp only [Cache.cleanupRoutine, h, hx]
      simp

theorem cache_sweep_not_needed_witness :
    (1700000000000000200 : Int) ≤ 1700000000000000300
      ∧ ((NewCache.Set "x" (Value.num 42) 100 1700000000000000000).cleanupRoutine
          1700000000000000200).Get "x" 1700000000000000300
        = (NewCache.Set "x" (Value.num 42) 100 1700000000000000000).Get "x"
            1700000000000000300 :=
  ⟨by decide,
    (cache_sweep_not_needed (NewCache.Set "x" (Value.num 42) 100 1700000000000000000) "x"
      1700000000000000200 1700000000000000300 (by decide)).1⟩

/-- C20, on the code: `SafeSet` stores the value that comes back from the JSON
round trip, without escaping it.  For a string `s` that `encoding/json` gives
back unchanged, a plain `Get(key)` straight after `SafeSet(key, s, ttl)`
returns `s` itself, not its HTML-escaped form. -/
theorem safeset_stores_string_unescaped (json : JSONCodec) (c : Cache) (k s : String)
    (ttl now : Int) (bytes : List Nat) (hm : json.Marshal (Value.str s) = some bytes)
    (hu : json.Unmarshal bytes = some (Value.str s)) (httl : 0 < ttl) (httl64 : ttl < 2 ^ 63)
    (hlo : -2 ^ 63 ≤ now) (hhi : now < 2 ^ 63) :
    (c.SafeSet json k (Value.str s) ttl now).Get k now = (Value.str s, true)
      ∧ (SanitizeString s ≠ s →
          (c.SafeSet json k (Value.str s) ttl now).Get k now
            ≠ (Value.str (SanitizeString s), true)) := by
  have h : (c.SafeSet json k (Value.str s) ttl now).Get k now = (Value.str s, true) := by
    rw [Cache.SafeSet_of_round_trip json c k _ _ ttl now bytes hm hu,
      Cache.Get_of_items _ k now _ (Cache.Set_items_self c k _ ttl now),
      if_neg (Cache.Set_fresh_not_expired ttl now httl httl64 hlo hhi)]
  refine ⟨h, ?_⟩
  intro hne heq
  rw [h] at heq
  have h2 : Value.str s = Value.str (SanitizeString s) := (Prod.mk.inj heq).1
  exact hne (Value.str.inj h2).symm

theorem safeset_stores_string_unescaped_witness :
    codePointCodec.Marshal (Value.str "<script>alert(1)</script>")
        = some ("<script>alert(1)</script>".toList.map Char.toNat)
      ∧ codePointCodec.Unmarshal ("<script>alert(1)</script>".toList.map Char.toNat)
        = some (Value.str "<script>alert(1)</script>")
      ∧ (0 : Int) < 60000000000 ∧ (60000000000 : Int) < 2 ^ 63
      ∧ (-2 ^ 63 : Int) ≤ 1700000000000000000 ∧ (1700000000000000000 : Int) < 2 ^ 63
      ∧ SanitizeString "<script>alert(1)</script>" = "&lt;script&gt;alert(1)&lt;/script&gt;"
      ∧ (NewCache.SafeSet codePointCodec "k" (Value.str "<script>alert(1)</script>") 60000000000
          1700000000000000000).Get "k" 1700000000000000000
        = (Value.str "<script>alert(1)</script>", true) :=
  ⟨rfl, rfl, by decide, by decide, by decide, by decide, by decide,
    (safeset_stores_string_unescaped codePointCodec NewCache "k" "<script>alert(1)</script>"
      60000000000 1700000000000000000 _ rfl rfl (by decide) (by decide) (by decide)
      (by decide)).1⟩

end cache

/-! ## The limiter sweep, overrides and the middleware -/

namespace middleware

theorem windowStep_filterWindow (N W s now : Int) (stored : List Int) (hs : s ≤ now) :
    windowStep N W (filterWindow s W stored) now = windowStep N W stored now := by
  unfold windowStep
  rw [filterWindow_idem_of_le s now W stored hs]

namespace RateLimiter

theorem isIPAllowed_ipRequests_self (rl : RateLimiter) (ip : String) (now : Int) :
    (rl.isIPAllowed ip now).2.ipRequests ip
      = some (windowStep rl.defaultConfig.MaxRequests rl.defaultConfig.Window
          ((rl.ipRequests ip).getD []) now).2 := by
  unfold isIPAllowed windowStep
  simp only []
  split <;> simp [GoMap.set]

theorem isPathAllowed_pathRequests_self (rl : RateLimiter) (path : String) (now : Int) :
    (rl.isPathAllowed path now).2.pathRequests path
      = some (windowStep (rl.getConfigForPath path).MaxRequests
          (rl.getConfigForPath path).Window ((rl.pathRequests path).getD []) now).2 := by
  unfold isPathAllowed windowStep
  simp only []
  split <;> simp [GoMap.set]

theorem cleanup_ipRequests_getD (rl : RateLimiter) (ip : String) (s : Int) :
    ((rl.cleanup s).ipRequests ip).getD []
      = filterWindow s rl.defaultConfig.Window ((rl.ipRequests ip).getD []) := by
  simp only [cleanup]
  cases h : rl.ipRequests ip with
  | none => rfl
  | some times =>
    by_cases hl : (filterWindow s rl.defaultConfig.Window times).length > 0
    · simp [hl]
    · have : filterWindow s rl.defaultConfig.Window times = [] :=
        List.length_eq_zero.mp (by omega)
      simp [this]

theorem cleanup_pathRequests_getD (rl : RateLimiter) (path : String) (s : Int) :
    ((rl.cleanup s).pathRequests path).getD []
      = filterWindow s (rl.getConfigForPath path).Window ((rl.pathRequests path).getD []) := by
  simp only [cleanup]
  cases h : rl.pathRequests path with
  | none => rfl
  | some times =>
    by_cases hl : (filterWindow s (rl.getConfigForPath path).Window times).length > 0
    · simp [hl]
    · have : filterWindow s (rl.getConfigForPath path).Window times = [] :=
        List.length_eq_zero.mp (by omega)
      simp [this]

theorem cleanup_getConfigForPath (rl : RateLimiter) (path : String) (s : Int) :
    (rl.cleanup s).getConfigForPath path = rl.getConfigForPath path := rfl

end RateLimiter

/-- C16. The limiter sweep is not needed for admission decisions: for every
limiter, key and clock readings `s <= now`, the check on the key at `now`
after a sweep at `s` returns the same boolean and stores the same sequence
for the key as the check at `now` without the sweep.  Stated for
`isIPAllowed` and for `isPathAllowed`. -/
theorem limiter_sweep_not_needed (rl : RateLimiter) (key : String) (s now : Int)
    (hs : s ≤ now) :
    ((rl.cleanup s).isIPAllowed key now).1 = (rl.isIPAllowed key now).1
      ∧ ((rl.cleanup s).isIPAllowed key now).2.ipRequests key
        = (rl.isIPAllowed key now).2.ipRequests key
      ∧ ((rl.cleanup s).isPathAllowed key now).1 = (rl.isPathAllowed key now).1
      ∧ ((rl.cleanup s).isPathAllowed key now).2.pathRequests key
        = (rl.isPathAllowed key now).2.pathRequests key := by
  have hd : (rl.cleanup s).defaultConfig = rl.defaultConfig := rfl
  have hip := RateLimiter.cleanup_ipRequests_getD rl key s
  have hpa := RateLimiter.cleanup_pathRequests_getD rl key s
  have hc := RateLimiter.cleanup_getConfigForPath rl key s
  refine ⟨?_, ?_, ?_, ?_⟩
  · rw [(RateLimiter.isIPAllowed_eq_windowStep (rl.cleanup s) key now).1,
      (RateLimiter.isIPAllowed_eq_windowStep rl key now).1, hd, hip,
      windowStep_filterWindow _ _ s now _ hs]
  · rw [RateLimiter.isIPAllowed_ipRequests_self, RateLimiter.isIPAllowed_ipRequests_self, hd,
      hip, windowStep_filterWindow _ _ s now _ hs]
  · rw [(RateLimiter.isPathAllowed_eq_windowStep (rl.cleanup s) key now).1,
      (RateLimiter.isPathAllowed_eq_windowStep rl key now).1, hc, hpa,
      windowStep_filterWindow _ _ s now _ hs]
  · rw [RateLimiter.isPathAllowed_pathRequests_self,
      RateLimiter.isPathAllowed_pathRequests_self, hc, hpa,
      windowStep_filterWindow _ _ s now _ hs]

theorem limiter_sweep_not_needed_witness :
    (1500 : Int) ≤ 1600
      ∧ ((((NewRateLimiter 3 1000 5).ipChecks "1.2.3.4" [0, 700, 800]).cleanup
          1500).isIPAllowed "1.2.3.4" 1600).1
        = (((NewRateLimiter 3 1000 5).ipChecks "1.2.3.4" [0, 700, 800]).isIPAllowed "1.2.3.4"
            1600).1 :=
  ⟨by decide,
    (limiter_sweep_not_needed ((NewRateLimiter 3 1000 5).ipChecks "1.2.3.4" [0, 700, 800])
      "1.2.3.4" 1500 1600 (by decide)).1⟩

/-- C18. `SetPathConfig(path, maxEvents, window)` changes only the registry
entry for `path`: the client table, the resource table (the sequence recorded
for `path` included), the default configuration and the overrides of all
other paths are unchanged; and calling it twice with the same arguments gives
the same limiter as calling it once. -/
theorem setpathconfig_changes_only_its_entry (rl : RateLimiter) (path : String)
    (maxRequests window : Int) :
    (rl.SetPathConfig path maxRequests window).ipRequests = rl.ipRequests
      ∧ (rl.SetPathConfig path maxRequests window).pathRequests = rl.pathRequests
      ∧ (rl.SetPathConfig path maxRequests window).defaultConfig = rl.defaultConfig
      ∧ (rl.SetPathConfig path maxRequests window).cleanupInterval = rl.cleanupInterval
      ∧ (rl.SetPathConfig path maxRequests window).pathConfigs path
        = some { MaxRequests := maxRequests, Window := window }
      ∧ (∀ k : String, k ≠ path →
          (rl.SetPathConfig path maxRequests window).pathConfigs k = rl.pathConfigs k)
      ∧ (rl.SetPathConfig path maxRequests window).SetPathConfig path maxRequests window
        = rl.SetPathConfig path maxRequests window := by
  refine ⟨rfl, rfl, rfl, rfl, ?_, ?_, ?_⟩
  · simp [RateLimiter.SetPathConfig, GoMap.set]
  · intro k hk
    simp [RateLimiter.SetPathConfig, GoMap.set, hk]
  · have hset : (rl.pathConfigs.set path { MaxRequests := maxRequests, Window := window }).set
        path { MaxRequests := maxRequests, Window := window }
        = rl.pathConfigs.set path { MaxRequests := maxRequests, Window := window } := by
      funext k
      by_cases hk : k = path
      · simp [GoMap.set, hk]
      · simp [GoMap.set, hk]
    simp only [RateLimiter.SetPathConfig, hset]

theorem setpathconfig_changes_only_its_entry_witness :
    "/api/v1/login" ≠ "/r"
      ∧ (((NewRateLimiter 100 60000000000 300000000000).SetPathConfig "/api/v1/login" 5
          60000000000).SetPathConfig "/r" 5 1000000000).pathConfigs "/api/v1/login"
        = ((NewRateLimiter 100 60000000000 300000000000).SetPathConfig "/api/v1/login" 5
            60000000000).pathConfigs "/api/v1/login" :=
  ⟨by decide,
    (setpathconfig_changes_only_its_entry
      ((NewRateLimiter 100 60000000000 300000000000).SetPathConfig "/api/v1/login" 5
        60000000000) "/r" 5 1000000000).2.2.2.2.2.1 "/api/v1/login" (by decide)⟩

/-- C19. The sequential reading of concurrent admission.  The lock makes each
check one atomic step, so `M` concurrent checks on a key run in some order,
with non-decreasing clock readings `ts`.  When they are simultaneous (all
readings less than `window` after the first), the key is fresh and
`maxEvents = n < M`, exactly `n` of the results are true and `M - n` are
false, in whatever order the callers got the lock.  Stated for `isIPAllowed`
and for `isPathAllowed`. -/
theorem concurrent_admission_is_exact (rl : RateLimiter) (key : String) (n : Nat)
    (ts : List Int) (t0 : Int) (hlen : n < ts.length)
    (hsorted : List.Pairwise (· ≤ ·) ts) (hhead : ts.head? = some t0) :
    (rl.ipRequests key = none → rl.defaultConfig.MaxRequests = (n : Int) →
        (∀ t ∈ ts, t - t0 < rl.defaultConfig.Window) →
        (rl.ipResults key ts).length = ts.length
          ∧ (rl.ipResults key ts).count true = n
          ∧ (rl.ipResults key ts).count false = ts.length - n)
    ∧ (rl.pathRequests key = none → (rl.getConfigForPath key).MaxRequests = (n : Int) →
        (∀ t ∈ ts, t - t0 < (rl.getConfigForPath key).Window) →
        (rl.pathResults key ts).length = ts.length
          ∧ (rl.pathResults key ts).count true = n
          ∧ (rl.pathResults key ts).count false = ts.length - n) := by
  have hcount : ∀ l : List Bool,
      l = List.replicate (min (n : Int).toNat ts.length) true
          ++ List.replicate (ts.length - (n : Int).toNat) false →
      l.length = ts.length ∧ l.count true = n ∧ l.count false = ts.length - n := by
    intro l hl
    subst hl
    have h1 : (n : Int).toNat = n := Int.toNat_ofNat n
    rw [h1]
    have h2 : min n ts.length = n := by omega
    rw [h2]
    refine ⟨?_, ?_, ?_⟩
    · simp; omega
    · simp [List.count_append, List.count_replicate]
    · simp [List.count_append, List.count_replicate]
  constructor
  · intro hfresh hN hwithin
    apply hcount
    rw [RateLimiter.ipResults_fresh_burst rl key ts t0 hfresh hsorted hhead hwithin, hN]
  · intro hfresh hN hwithin
    apply hcount
    rw [RateLimiter.pathResults_fresh_burst rl key ts t0 hfresh hsorted hhead hwithin, hN]

theorem concurrent_admission_is_exact_witness :
    3 < [(5 : Int), 5, 5, 6, 6, 7].length
      ∧ List.Pairwise (· ≤ ·) [(5 : Int), 5, 5, 6, 6, 7]
      ∧ [(5 : Int), 5, 5, 6, 6, 7].head? = some 5
      ∧ ((NewRateLimiter 3 1000 5).ipResults "1.2.3.4" [5, 5, 5, 6, 6, 7]).count true = 3
      ∧ ((NewRateLimiter 3 1000 5).ipResults "1.2.3.4" [5, 5, 5, 6, 6, 7]).count false = 6 - 3 :=
  ⟨by decide, by decide, rfl,
    ((concurrent_admission_is_exact (NewRateLimiter 3 1000 5) "1.2.3.4" 3 [5, 5, 5, 6, 6, 7] 5
      (by decide) (by decide) rfl).1 rfl rfl (by decide)).2.1,
    ((concurrent_admission_is_exact (NewRateLimiter 3 1000 5) "1.2.3.4" 3 [5, 5, 5, 6, 6, 7] 5
      (by decide) (by decide) rfl).1 rfl rfl (by decide)).2.2⟩

namespace RateLimiter

theorem isIPAllowed_frame (rl : RateLimiter) (ip : String) (now : Int) :
    (rl.isIPAllowed ip now).2.pathRequests = rl.pathRequests
      ∧ (rl.isIPAllowed ip now).2.pathConfigs = rl.pathConfigs
      ∧ (rl.isIPAllowed ip now).2.defaultConfig = rl.defaultConfig := by
  unfold isIPAllowed
  simp only []
  split <;> exact ⟨rfl, rfl, rfl⟩

/-- The path check decides the same after a client check as before it. -/
theorem isPathAllowed_fst_after_isIPAllowed (rl : RateLimiter) (ip path : String)
    (now1 now2 : Int) :
    ((rl.isIPAllowed ip now1).2.isPathAllowed path now2).1 = (rl.isPathAllowed path now2).1 := by
  obtain ⟨h1, h2, h3⟩ := isIPAllowed_frame rl ip now1
  have hc : (rl.isIPAllowed ip now1).2.getConfigForPath path = rl.getConfigForPath path := by
    unfold getConfigForPath
    rw [h2, h3]
  rw [(isPathAllowed_eq_windowStep (rl.isIPAllowed ip now1).2 path now2).1,
    (isPathAllowed_eq_windowStep rl path now2).1, hc, h1]

end RateLimiter

/-- C15. `RateLimitMiddleware` hands the request to the next handler exactly
when `isIPAllowed(client IP)` and `isPathAllowed(request path)` both return
true: then the response is what the next handler makes of the untouched
writer.  When the client check returns false, or the client check returns
true and the path check false, the response is the same for every next
handler (it is not called): the headers `Content-Type: application/json` and
`Retry-After: 60`, the status 429 and a fixed body.  The path check made by
the middleware decides as `isPathAllowed` does on the limiter before the
request. -/
theorem middleware_admits_iff_both_allow (net : NetPkg) (limiter : RateLimiter)
    (next : Handler) (w : ResponseWriter) (r : Request) (now1 now2 : Int) :
    ((limiter.isIPAllowed (GetClientIP net r) now1).1 = true →
        ((limiter.isIPAllowed (GetClientIP net r) now1).2.isPathAllowed r.URLPath now2).1 = true →
        (RateLimitMiddleware net limiter next w r now1 now2).2 = next w r)
      ∧ ((limiter.isIPAllowed (GetClientIP net r) now1).1 = false →
          ∀ next2 : Handler, (RateLimitMiddleware net limiter next2 w r now1 now2).2
            = w ++ [ResponseCall.headerSet "Content-Type" "application/json",
                ResponseCall.headerSet "Retry-After" "60",
                ResponseCall.writeHeader 429,
                ResponseCall.write ipDeniedBody])
      ∧ ((limiter.isIPAllowed (GetClientIP net r) now1).1 = true →
          ((limiter.isIPAllowed (GetClientIP net r) now1).2.isPathAllowed r.URLPath now2).1
            = false →
          ∀ next2 : Handler, (RateLimitMiddleware net limiter next2 w r now1 now2).2
            = w ++ [ResponseCall.headerSet "Content-Type" "application/json",
                ResponseCall.headerSet "Retry-After" "60",
                ResponseCall.writeHeader 429,
                ResponseCall.write pathDeniedBody])
      ∧ ((limiter.isIPAllowed (GetClientIP net r) now1).2.isPathAllowed r.URLPath now2).1
          = (limiter.isPathAllowed r.URLPath now2).1 := by
  refine ⟨?_, ?_, ?_, ?_⟩
  · intro hip hpath
    simp [RateLimitMiddleware, hip, hpath]
  · intro hip next2
    simp [RateLimitMiddleware, hip]
  · intro hip hpath next2
    simp [RateLimitMiddleware, hip, hpath]
  · exact RateLimiter.isPathAllowed_fst_after_isIPAllowed limiter _ _ now1 now2

theorem middleware_admits_iff_both_allow_witness :
    ((NewRateLimiter 1 1000 5).isIPAllowed
        (GetClientIP { SplitHostPort := fun _ => none }
          { Header := fun _ => "", RemoteAddr := "10.0.0.1", URLPath := "/x" }) 7).1 = true
      ∧ (((NewRateLimiter 1 1000 5).isIPAllowed
          (GetClientIP { SplitHostPort := fun _ => none }
            { Header := fun _ => "", RemoteAddr := "10.0.0.1", URLPath := "/x" }) 7).2.isPathAllowed
          "/x" 8).1 = true
      ∧ (RateLimitMiddleware { SplitHostPort := fun _ => none } (NewRateLimiter 1 1000 5)
          (fun w _ => w ++ [ResponseCall.write "ok"]) []
          { Header := fun _ => "", RemoteAddr := "10.0.0.1", URLPath := "/x" } 7 8).2
        = [ResponseCall.write "ok"]
      ∧ ((NewRateLimiter 0 1000 5).isIPAllowed
        (GetClientIP { SplitHostPort := fun _ => none }
          { Header := fun _ => "", RemoteAddr := "10.0.0.1", URLPath := "/x" }) 7).1 = false
      ∧ (RateLimitMiddleware { SplitHostPort := fun _ => none } (NewRateLimiter 0 1000 5)
          (fun w _ => w ++ [ResponseCall.write "ok"]) []
          { Header := fun _ => "", RemoteAddr := "10.0.0.1", URLPath := "/x" } 7 8).2
        = [ResponseCall.headerSet "Content-Type" "application/json",
            ResponseCall.headerSet "Retry-After" "60",
            ResponseCall.writeHeader 429,
            ResponseCall.write ipDeniedBody] :=
  ⟨by decide, by decide,
    (middleware_admits_iff_both_allow { SplitHostPort := fun _ => none }
      (NewRateLimiter 1 1000 5) (fun w _ => w ++ [ResponseCall.write "ok"]) []
      { Header := fun _ => "", RemoteAddr := "10.0.0.1", URLPath := "/x" } 7 8).1
      (by decide) (by decide),
    by decide,
    (middleware_admits_iff_both_allow { SplitHostPort := fun _ => none }
      (NewRateLimiter 0 1000 5) (fun w _ => w ++ [ResponseCall.write "ok"]) []
      { Header := fun _ => "", RemoteAddr := "10.0.0.1", URLPath := "/x" } 7 8).2.1
      (by decide) (fun w _ => w ++ [ResponseCall.write "ok"])⟩

end middleware

/-! ## The sanitizer -/

namespace utils

theorem suffix_append_cases (t a b : List Char) (h : t <:+ a ++ b) :
    t <:+ b ∨ ∃ v, v <:+ a ∧ v ≠ [] ∧ t = v ++ b := by
  induction a with
  | nil => exact Or.inl (by simpa using h)
  | cons x a ih =>
    rw [List.cons_append, List.suffix_cons_iff] at h
    rcases h with h | h
    · exact Or.inr ⟨x :: a, List.suffix_refl _, by simp, by simpa using h⟩
    · rcases ih h with h2 | ⟨v, hv, hne, ht⟩
      · exact Or.inl h2
      · exact Or.inr ⟨v, hv.trans (List.suffix_cons x a), hne, ht⟩

theorem replaceAllAux_nil (old new : List Char) (k : Nat) :
    replaceAllAux old new k [] = [] := by
  cases k <;> rfl

theorem replaceAllAux_skip (old new : List Char) (l : List Char) :
    ∀ k : Nat, replaceAllAux old new k l = replaceAllAux old new 0 (l.drop k) := by
  induction l with
  | nil => intro k; simp [replaceAllAux_nil]
  | cons c cs ih =>
    intro k
    cases k with
    | zero => rfl
    | succ k =>
      rw [List.drop_succ_cons, ← ih k]
      rfl

theorem replaceAllAux_cons_match (old new : List Char) (c : Char) (cs : List Char)
    (hold : old ≠ []) (hm : old <+: c :: cs) :
    replaceAllAux old new 0 (c :: cs)
      = new ++ replaceAllAux old new 0 ((c :: cs).drop old.length) := by
  have hp : old.isPrefixOf (c :: cs) = true := List.isPrefixOf_iff_prefix.mpr hm
  obtain ⟨k, hk⟩ : ∃ k, old.length = k + 1 :=
    ⟨old.length - 1, by have := List.length_pos.mpr hold; omega⟩
  have hstep : replaceAllAux old new 0 (c :: cs)
      = new ++ replaceAllAux old new (old.length - 1) cs := by
    simp only [replaceAllAux, hp, if_true]
  rw [hstep, replaceAllAux_skip old new cs (old.length - 1), hk, List.drop_succ_cons]
  rfl

theorem replaceAllAux_cons_nomatch (old new : List Char) (c : Char) (cs : List Char)
    (hm : ¬ old <+: c :: cs) :
    replaceAllAux old new 0 (c :: cs) = c :: replaceAllAux old new 0 cs := by
  have hp : ¬ (old.isPrefixOf (c :: cs) = true) := fun h => hm (List.isPrefixOf_iff_prefix.mp h)
  simp only [replaceAllAux, hp, if_false]
  simp

theorem mem_replaceAllAux (old new : List Char) (x : Char) (l : List Char) :
    ∀ k : Nat, x ∈ replaceAllAux old new k l → x ∈ l ∨ x ∈ new := by
  induction l with
  | nil => intro k h; simp [replaceAllAux_nil] at h
  | cons c cs ih =>
    intro k h
    cases k with
    | succ k =>
      have h2 : x ∈ replaceAllAux old new k cs := h
      rcases ih k h2 with h3 | h3
      · exact Or.inl (List.mem_cons_of_mem c h3)
      · exact Or.inr h3
    | zero =>
      by_cases hp : old.isPrefixOf (c :: cs) = true
      · have h2 : x ∈ new ++ replaceAllAux old new (old.length - 1) cs := by
          simpa only [replaceAllAux, hp, if_true] using h
        rcases List.mem_append.mp h2 with h3 | h3
        · exact Or.inr h3
        · rcases ih _ h3 with h4 | h4
          · exact Or.inl (List.mem_cons_of_mem c h4)
          · exact Or.inr h4
      · have h2 : x ∈ c :: replaceAllAux old new 0 cs := by
          simpa [replaceAllAux, hp] using h
        rcases List.mem_cons.mp h2 with h3 | h3
        · exact Or.inl (by simp [h3])
        · rcases ih 0 h3 with h4 | h4
          · exact Or.inl (List.mem_cons_of_mem c h4)
          · exact Or.inr h4

/-- A pattern that does not hold the first character of `new` starts the
output of the scan only where it starts the input. -/
theorem prefix_of_prefix_replaceAll (old new : List Char) (n0 : Char) (new1 : List Char)
    (hold : old ≠ []) (hnew : new = n0 :: new1) (Q : List Char) :
    ∀ l : List Char, n0 ∉ Q → Q <+: replaceAllAux old new 0 l → Q <+: l := by
  induction Q with
  | nil => intro l _ _; exact List.nil_prefix
  | cons q Q ih =>
    intro l hn hpre
    cases l with
    | nil => simp [replaceAllAux_nil] at hpre
    | cons c cs =>
      by_cases hm : old <+: c :: cs
      · rw [replaceAllAux_cons_match old new c cs hold hm, hnew, List.cons_append,
          List.cons_prefix_cons] at hpre
        exact absurd (by simp [hpre.1]) hn
      · rw [replaceAllAux_cons_nomatch old new c cs hm, List.cons_prefix_cons] at hpre
        rw [List.cons_prefix_cons]
        exact ⟨hpre.1, ih cs (fun h => hn (List.mem_cons_of_mem q h)) hpre.2⟩

/-- No occurrence of the pattern `Q` in the output of the scan, when `Q` can
only occur in the input where `old` occurs and cannot overlap an inserted
`new`. -/
theorem no_occurrence_after_replaceAll (old new Q : List Char) (n0 : Char) (new1 : List Char)
    (hold : old ≠ []) (hQ : Q ≠ []) (hnew : new = n0 :: new1) (hn : n0 ∉ Q)
    (hsuf : ∀ v ∈ new.tails, v ≠ [] → ¬ Q <+: v ∧ ¬ v <+: Q) :
    ∀ (n : Nat) (l : List Char), l.length ≤ n → (∀ t, t <:+ l → Q <+: t → old <+: t) →
      ∀ t, t <:+ replaceAllAux old new 0 l → ¬ Q <+: t := by
  intro n
  induction n with
  | zero =>
    intro l hl _ t ht hq
    have : l = [] := List.length_eq_zero.mp (by omega)
    subst this
    rw [replaceAllAux_nil, List.suffix_nil] at ht
    subst ht
    exact hQ (List.prefix_nil.mp hq)
  | succ n ih =>
    intro l hl hocc t ht hq
    cases l with
    | nil =>
      rw [replaceAllAux_nil, List.suffix_nil] at ht
      subst ht
      exact hQ (List.prefix_nil.mp hq)
    | cons c cs =>
      by_cases hm : old <+: c :: cs
      · rw [replaceAllAux_cons_match old new c cs hold hm] at ht
        have hlen : ((c :: cs).drop old.length).length ≤ n := by
          have := List.length_pos.mpr hold
          simp only [List.length_drop, List.length_cons] at hl ⊢
          omega
        have hocc2 : ∀ t, t <:+ (c :: cs).drop old.length → Q <+: t → old <+: t :=
          fun t h1 h2 => hocc t (h1.trans (List.drop_suffix _ _)) h2
        rcases suffix_append_cases t _ _ ht with h1 | ⟨v, hv, hne, rfl⟩
        · exact ih _ hlen hocc2 t h1 hq
        · have hvt : v ∈ new.tails := (List.mem_tails v new).mpr hv
          rcases List.prefix_or_prefix_of_prefix hq (List.prefix_append v _) with h2 | h2
          · exact (hsuf v hvt hne).1 h2
          · exact (hsuf v hvt hne).2 h2
      · rw [replaceAllAux_cons_nomatch old new c cs hm, List.suffix_cons_iff] at ht
        have hlen : cs.length ≤ n := by simpa using hl
        have hocc2 : ∀ t, t <:+ cs → Q <+: t → old <+: t :=
          fun t h1 h2 => hocc t (h1.trans (List.suffix_cons c cs)) h2
        rcases ht with rfl | h1
        · rw [← replaceAllAux_cons_nomatch old new c cs hm] at hq
          have := prefix_of_prefix_replaceAll old new n0 new1 hold hnew Q (c :: cs) hn hq
          exact hm (hocc (c :: cs) (List.suffix_refl _) this)
        · exact ih cs hlen hocc2 t h1 hq

theorem SanitizeString_toList (input : String) :
    (SanitizeString input).toList
      = replaceAllAux "data:".toList "blocked:".toList 0
          (replaceAllAux "javascript:".toList "blocked:".toList 0
            (cache.htmlEscapeString input).toList) := rfl

/-- C21. For every input string, the output of `utils.SanitizeString` holds
none of the characters `<`, `>`, the double quote and the apostrophe, and
neither `javascript:` nor `data:` occurs in it as a substring: the two
successive replacements by `blocked:` do not bring either scheme back. -/
theorem sanitizeString_output_is_clean (input : String) :
    (∀ x ∈ (SanitizeString input).toList,
        x ≠ '<' ∧ x ≠ '>' ∧ x ≠ Char.ofNat 34 ∧ x ≠ Char.ofNat 39)
      ∧ ¬ ("javascript:".toList <:+: (SanitizeString input).toList)
      ∧ ¬ ("data:".toList <:+: (SanitizeString input).toList) := by
  rw [SanitizeString_toList]
  have hb : "blocked:".toList = 'b' :: "locked:".toList := rfl
  have hjs : ∀ t, t <:+ replaceAllAux "javascript:".toList "blocked:".toList 0
      (cache.htmlEscapeString input).toList → ¬ "javascript:".toList <+: t :=
    no_occurrence_after_replaceAll "javascript:".toList "blocked:".toList "javascript:".toList
      'b' "locked:".toList (by decide) (by decide) hb (by decide) (by decide) _ _ (le_refl _)
      (fun _ _ h => h)
  refine ⟨?_, ?_, ?_⟩
  · intro x hx
    have hblocked : ∀ y ∈ "blocked:".toList,
        y ≠ '<' ∧ y ≠ '>' ∧ y ≠ Char.ofNat 34 ∧ y ≠ Char.ofNat 39 := by decide
    rcases mem_replaceAllAux _ _ x _ 0 hx with h1 | h1
    · rcases mem_replaceAllAux _ _ x _ 0 h1 with h2 | h2
      · obtain ⟨a, b, c, d⟩ := cache.htmlEscapeString_no_markup input x h2
        exact ⟨a, b, d, c⟩
      · exact hblocked x h2
    · exact hblocked x h1
  · intro hin
    obtain ⟨t, hpre, hsufx⟩ := List.infix_iff_prefix_suffix.mp hin
    exact no_occurrence_after_replaceAll "data:".toList "blocked:".toList "javascript:".toList
      'b' "locked:".toList (by decide) (by decide) hb (by decide) (by decide) _ _ (le_refl _)
      (fun t ht hq => absurd hq (hjs t ht)) t hsufx hpre
  · intro hin
    obtain ⟨t, hpre, hsufx⟩ := List.infix_iff_prefix_suffix.mp hin
    exact no_occurrence_after_replaceAll "data:".toList "blocked:".toList "data:".toList
      'b' "locked:".toList (by decide) (by decide) hb (by decide) (by decide) _ _ (le_refl _)
      (fun _ _ h => h) t hsufx hpre

theorem sanitizeSlice_eq_map (v : List cache.Value) :
    sanitizeSlice v = v.map sanitizeValue := by
  induction v with
  | nil => rfl
  | cons item rest ih => simp [sanitizeSlice, ih]

theorem sanitizeMap_eq_map (v : List (String × cache.Value)) :
    sanitizeMap v = v.map (fun kv => (kv.1, sanitizeValue kv.2)) := by
  induction v with
  | nil => rfl
  | cons kv rest ih =>
    obtain ⟨key, val⟩ := kv
    simp [sanitizeMap, ih]

theorem lookup_map_snd (f : cache.Value → cache.Value) (k : String)
    (v : List (String × cache.Value)) :
    List.lookup k (v.map (fun kv => (kv.1, f kv.2))) = (List.lookup k v).map f := by
  induction v with
  | nil => rfl
  | cons kv rest ih =>
    obtain ⟨key, val⟩ := kv
    by_cases h : k = key
    · subst h
      simp [List.lookup]
    · have hb : (k == key) = false := by simpa using h
      simp [List.lookup, hb, ih]

/-- C22. `sanitizeValue` keeps the structure of its input: a string becomes
`SanitizeString` of it; a list becomes the list of the same length whose
`i`-th element is `sanitizeValue` of the `i`-th element; a map becomes the map
with the same keys, unchanged, whose value at each key is `sanitizeValue` of
the value there; numbers, booleans, null and any other value are returned
unchanged.  `SanitizeJSON` is `sanitizeValue` between `Unmarshal` and
`Marshal`. -/
theorem sanitizeValue_keeps_structure :
    (∀ str : String, sanitizeValue (cache.Value.str str) = cache.Value.str (SanitizeString str))
      ∧ (∀ xs : List cache.Value,
          sanitizeValue (cache.Value.slice xs) = cache.Value.slice (xs.map sanitizeValue)
          ∧ (xs.map sanitizeValue).length = xs.length
          ∧ ∀ i : Nat, (xs.map sanitizeValue)[i]? = (xs[i]?).map sanitizeValue)
      ∧ (∀ kvs : List (String × cache.Value),
          sanitizeValue (cache.Value.object kvs)
            = cache.Value.object (kvs.map (fun kv => (kv.1, sanitizeValue kv.2)))
          ∧ (kvs.map (fun kv => (kv.1, sanitizeValue kv.2))).map Prod.fst = kvs.map Prod.fst
          ∧ ∀ k : String, List.lookup k (kvs.map (fun kv => (kv.1, sanitizeValue kv.2)))
              = (List.lookup k kvs).map sanitizeValue)
      ∧ sanitizeValue cache.Value.nil = cache.Value.nil
      ∧ (∀ b : Bool, sanitizeValue (cache.Value.bool b) = cache.Value.bool b)
      ∧ (∀ n : Int, sanitizeValue (cache.Value.num n) = cache.Value.num n)
      ∧ (∀ tag : Nat, sanitizeValue (cache.Value.chan tag) = cache.Value.chan tag)
      ∧ (∀ (json : cache.JSONCodec) (jsonData : List Nat),
          SanitizeJSON json jsonData
            = (json.Unmarshal jsonData).bind (fun data => json.Marshal (sanitizeValue data))) := by
  refine ⟨fun _ => by simp [sanitizeValue], ?_, ?_, by simp [sanitizeValue],
    fun _ => by simp [sanitizeValue], fun _ => by simp [sanitizeValue],
    fun _ => by simp [sanitizeValue], ?_⟩
  · intro xs
    refine ⟨by simp [sanitizeValue, sanitizeSlice_eq_map], by simp, ?_⟩
    intro i
    simp
  · intro kvs
    refine ⟨by simp [sanitizeValue, sanitizeMap_eq_map], ?_, ?_⟩
    · simp [List.map_map, Function.comp]
    · intro k
      exact lookup_map_snd sanitizeValue k kvs
  · intro json jsonData
    unfold SanitizeJSON
    cases json.Unmarshal jsonData <;> rfl

end utils

/-! ## The sweep pass, degenerate limits and the middleware's bookkeeping -/

namespace middleware

theorem sweep_entry (f : List Int) :
    (if f.length > 0 then some f else none) = if f = [] then none else some f := by
  cases f <;> simp

theorem sweep_entry_ne (f : List Int) :
    (if f = [] then none else some f) ≠ some ([] : List Int) := by
  cases f <;> simp

/-- C25. One pass of the limiter sweep at `now` replaces, in both tables, the
sequence of each key by its timestamps `t` with `now - t < window` (default
window for client keys, resolved window for resource keys) and removes the
key when nothing is left; after the pass no key of either table maps to an
empty sequence, and the registry, the default configuration and the sweep
interval are unchanged. -/
theorem sweep_pass_filters_and_drops_empty (rl : RateLimiter) (now : Int) :
    (∀ k : String, (rl.cleanup now).ipRequests k
        = (rl.ipRequests k).bind (fun times =>
            if times.filter (fun t => decide (now - t < rl.defaultConfig.Window)) = [] then none
            else some (times.filter (fun t => decide (now - t < rl.defaultConfig.Window)))))
      ∧ (∀ k : String, (rl.cleanup now).pathRequests k
        = (rl.pathRequests k).bind (fun times =>
            if times.filter (fun t => decide (now - t < (rl.getConfigForPath k).Window)) = []
            then none
            else some (times.filter
              (fun t => decide (now - t < (rl.getConfigForPath k).Window)))))
      ∧ (∀ k : String, (rl.cleanup now).ipRequests k ≠ some [])
      ∧ (∀ k : String, (rl.cleanup now).pathRequests k ≠ some [])
      ∧ (rl.cleanup now).pathConfigs = rl.pathConfigs
      ∧ (rl.cleanup now).defaultConfig = rl.defaultConfig
      ∧ (rl.cleanup now).cleanupInterval = rl.cleanupInterval := by
  have hip : ∀ k : String, (rl.cleanup now).ipRequests k
      = (rl.ipRequests k).bind (fun times =>
          if times.filter (fun t => decide (now - t < rl.defaultConfig.Window)) = [] then none
          else some (times.filter (fun t => decide (now - t < rl.defaultConfig.Window)))) := by
    intro k
    simp only [RateLimiter.cleanup]
    cases h : rl.ipRequests k with
    | none => rfl
    | some times =>
      simp only [Option.some_bind, filterWindow_eq_filter]
      exact sweep_entry _
  have hpa : ∀ k : String, (rl.cleanup now).pathRequests k
      = (rl.pathRequests k).bind (fun times =>
          if times.filter (fun t => decide (now - t < (rl.getConfigForPath k).Window)) = []
          then none
          else some (times.filter
            (fun t => decide (now - t < (rl.getConfigForPath k).Window)))) := by
    intro k
    simp only [RateLimiter.cleanup]
    cases h : rl.pathRequests k with
    | none => rfl
    | some times =>
      simp only [Option.some_bind, filterWindow_eq_filter]
      exact sweep_entry _
  refine ⟨hip, hpa, ?_, ?_, rfl, rfl, rfl⟩
  · intro k hk
    rw [hip k] at hk
    cases h : rl.ipRequests k with
    | none => simp [h] at hk
    | some times =>
      rw [h, Option.some_bind] at hk
      exact sweep_entry_ne _ hk
  · intro k hk
    rw [hpa k] at hk
    cases h : rl.pathRequests k with
    | none => simp [h] at hk
    | some times =>
      rw [h, Option.some_bind] at hk
      exact sweep_entry_ne _ hk

/-- C29. When the `maxEvents` resolved for a key is zero or negative, the
admission check on it returns false and appends nothing (the record becomes
its pruned self), at every clock reading and from every limiter state; and
`getEnvAsInt` hands through whatever integer the environment holds, so that
`InitRateLimiter` can resolve such a value. -/
theorem nonpositive_limit_denies_every_check (rl : RateLimiter) (k : String) (now : Int) :
    (rl.defaultConfig.MaxRequests ≤ 0 →
        (rl.isIPAllowed k now).1 = false
        ∧ (rl.isIPAllowed k now).2.ipRequests k
          = some (((rl.ipRequests k).getD []).filter
              (fun t => decide (now - t < rl.defaultConfig.Window))))
      ∧ ((rl.getConfigForPath k).MaxRequests ≤ 0 →
        (rl.isPathAllowed k now).1 = false
        ∧ (rl.isPathAllowed k now).2.pathRequests k
          = some (((rl.pathRequests k).getD []).filter
              (fun t => decide (now - t < (rl.getConfigForPath k).Window))))
      ∧ (∀ (env : utils.Environ) (key value : String) (fallback n : Int),
          env.LookupEnv key = some value → env.Atoi value = some n →
          utils.getEnvAsInt env key fallback = n)
      ∧ (∀ env : utils.Environ, (utils.InitRateLimiter env).defaultConfig.MaxRequests
          = utils.getEnvAsInt env "RATE_LIMIT_DEFAULT_MAX" 100) := by
  have hstep : ∀ (N W : Int) (stored : List Int), N ≤ 0 →
      windowStep N W stored now
        = (false, stored.filter (fun t => decide (now - t < W))) := by
    intro N W stored hN
    unfold windowStep
    have : ((filterWindow now W stored).length : Int) ≥ N := by
      have : (0 : Int) ≤ ((filterWindow now W stored).length : Int) := Int.ofNat_nonneg _
      omega
    rw [if_pos this, filterWindow_eq_filter]
  refine ⟨?_, ?_, ?_, ?_⟩
  · intro hN
    rw [(RateLimiter.isIPAllowed_eq_windowStep rl k now).1,
      RateLimiter.isIPAllowed_ipRequests_self, hstep _ _ _ hN]
    exact ⟨rfl, rfl⟩
  · intro hN
    rw [(RateLimiter.isPathAllowed_eq_windowStep rl k now).1,
      RateLimiter.isPathAllowed_pathRequests_self, hstep _ _ _ hN]
    exact ⟨rfl, rfl⟩
  · intro env key value fallback n h1 h2
    simp only [utils.getEnvAsInt, h1, h2]
  · intro env
    rfl

theorem nonpositive_limit_denies_every_check_witness :
    (NewRateLimiter 0 1000 5).defaultConfig.MaxRequests ≤ 0
      ∧ ((NewRateLimiter 0 1000 5).isIPAllowed "1.2.3.4" 7).1 = false
      ∧ ((NewRateLimiter 0 1000 5).isIPAllowed "1.2.3.4" 7).2.ipRequests "1.2.3.4" = some [] :=
  ⟨by decide,
    ((nonpositive_limit_denies_every_check (NewRateLimiter 0 1000 5) "1.2.3.4" 7).1
      (by decide)).1,
    ((nonpositive_limit_denies_every_check (NewRateLimiter 0 1000 5) "1.2.3.4" 7).1
      (by decide)).2⟩

/-- C27. `RateLimitMiddleware` runs the path check also when the client check
denies: for a request whose client check returns false while its path is
below its limit, the response is the 429 rejection and yet the clock reading
of the path check is appended to the record of the path. -/
theorem denied_client_still_uses_path_quota (net : NetPkg) (limiter : RateLimiter)
    (next : Handler) (w : ResponseWriter) (r : Request) (now1 now2 : Int)
    (hip : (limiter.isIPAllowed (GetClientIP net r) now1).1 = false)
    (hpath : (limiter.isPathAllowed r.URLPath now2).1 = true) :
    (RateLimitMiddleware net limiter next w r now1 now2).2
        = w ++ [ResponseCall.headerSet "Content-Type" "application/json",
            ResponseCall.headerSet "Retry-After" "60",
            ResponseCall.writeHeader 429,
            ResponseCall.write ipDeniedBody]
      ∧ ((RateLimitMiddleware net limiter next w r now1 now2).1.pathRequests r.URLPath).getD []
        = ((limiter.pathRequests r.URLPath).getD []).filter
            (fun t => decide (now2 - t < (limiter.getConfigForPath r.URLPath).Window))
          ++ [now2]
      ∧ ((RateLimitMiddleware net limiter next w r now1 now2).1.pathRequests r.URLPath).getD []
        = ((limiter.isPathAllowed r.URLPath now2).2.pathRequests r.URLPath).getD [] := by
  have hstate : (RateLimitMiddleware net limiter next w r now1 now2).1
      = ((limiter.isIPAllowed (GetClientIP net r) now1).2.isPathAllowed r.URLPath now2).2 := by
    simp only [RateLimitMiddleware]
    split
    · rfl
    · split <;> rfl
  obtain ⟨f1, f2, f3⟩ := RateLimiter.isIPAllowed_frame limiter (GetClientIP net r) now1
  have hc : (limiter.isIPAllowed (GetClientIP net r) now1).2.getConfigForPath r.URLPath
      = limiter.getConfigForPath r.URLPath := by
    unfold RateLimiter.getConfigForPath
    rw [f2, f3]
  have hstored : ((RateLimitMiddleware net limiter next w r now1 now2).1.pathRequests
      r.URLPath).getD []
      = ((limiter.isPathAllowed r.URLPath now2).2.pathRequests r.URLPath).getD [] := by
    rw [hstate, (RateLimiter.isPathAllowed_eq_windowStep _ r.URLPath now2).2.1,
      (RateLimiter.isPathAllowed_eq_windowStep limiter r.URLPath now2).2.1, hc, f1]
  refine ⟨?_, ?_, ?_⟩
  · simp [RateLimitMiddleware, hip]
  · rw [hstored, (RateLimiter.isPathAllowed_eq_windowStep limiter r.URLPath now2).2.1,
      windowStep_snd, ← (RateLimiter.isPathAllowed_eq_windowStep limiter r.URLPath now2).1,
      hpath, filterWindow_eq_filter]
    rfl
  · exact hstored

theorem denied_client_still_uses_path_quota_witness :
    (((NewRateLimiter 0 1000 5).SetPathConfig "/x" 5 1000).isIPAllowed
        (GetClientIP { SplitHostPort := fun _ => none }
          { Header := fun _ => "", RemoteAddr := "10.0.0.1", URLPath := "/x" }) 7).1 = false
      ∧ (((NewRateLimiter 0 1000 5).SetPathConfig "/x" 5 1000).isPathAllowed "/x" 8).1 = true
      ∧ ((RateLimitMiddleware { SplitHostPort := fun _ => none }
            ((NewRateLimiter 0 1000 5).SetPathConfig "/x" 5 1000)
            (fun w _ => w ++ [ResponseCall.write "ok"]) []
            { Header := fun _ => "", RemoteAddr := "10.0.0.1", URLPath := "/x" } 7
            8).1.pathRequests "/x").getD []
        = ((((NewRateLimiter 0 1000 5).SetPathConfig "/x" 5 1000).pathRequests "/x").getD
              []).filter
            (fun t => decide ((8 : Int) - t
              < (((NewRateLimiter 0 1000 5).SetPathConfig "/x" 5 1000).getConfigForPath
                  "/x").Window))
          ++ [8] :=
  ⟨by decide, by decide,
    (denied_client_still_uses_path_quota { SplitHostPort := fun _ => none }
      ((NewRateLimiter 0 1000 5).SetPathConfig "/x" 5 1000)
      (fun w _ => w ++ [ResponseCall.write "ok"]) []
      { Header := fun _ => "", RemoteAddr := "10.0.0.1", URLPath := "/x" } 7 8
      (by decide) (by decide)).2.1⟩

theorem append_ne_of_not_prefix (a id b : String) (h : ¬ a.toList <+: b.toList) :
    a ++ id ≠ b := by
  intro heq
  apply h
  have h2 : a.toList ++ id.toList = b.toList := by
    rw [← heq]
    rfl
  exact ⟨id.toList, h2⟩

/-- C28. `getConfigForPath` looks the path up by string equality only: a path
that is not registered itself resolves to the default configuration, also when
a proper prefix of it is registered.  After `InitRateLimiter` the override
registered for `/api/v1/delete-user` applies to that exact path and to no path
`/api/v1/delete-user/<id>`, and the only route pattern `main` registers
under that path is the one with an id segment. -/
theorem override_needs_exact_path :
    (∀ (rl : RateLimiter) (p : String), rl.pathConfigs p = none →
        rl.getConfigForPath p = rl.defaultConfig)
      ∧ (∀ (rl : RateLimiter) (q p : String) (n w : Int), q.toList <+: p.toList → q ≠ p →
          rl.pathConfigs p = none →
          (rl.SetPathConfig q n w).getConfigForPath p = rl.defaultConfig
          ∧ (rl.SetPathConfig q n w).getConfigForPath q = { MaxRequests := n, Window := w })
      ∧ (∀ (env : utils.Environ) (id : String),
          (utils.InitRateLimiter env).getConfigForPath ("/api/v1/delete-user/" ++ id)
            = (utils.InitRateLimiter env).defaultConfig)
      ∧ (∀ env : utils.Environ,
          (utils.InitRateLimiter env).getConfigForPath "/api/v1/delete-user"
            = { MaxRequests := utils.getEnvAsInt env "RATE_LIMIT_ADMIN_MAX" 20,
                Window := utils.getEnvAsDuration env "RATE_LIMIT_ADMIN_WINDOW"
                  (1 * utils.Minute) })
      ∧ (∀ p ∈ server.routePatterns, "/api/v1/delete-user".toList <+: p.toList →
          p = "/api/v1/delete-user/\x7bid\x7d")
      ∧ "/api/v1/delete-user/\x7bid\x7d" ∈ server.routePatterns := by
  refine ⟨?_, ?_, ?_, ?_, by decide, by decide⟩
  · intro rl p h
    simp [RateLimiter.getConfigForPath, h]
  · intro rl q p n w _ hne hnone
    constructor
    · rw [RateLimiter.getConfigForPath_SetPathConfig_ne rl q p n w (fun e => hne e.symm)]
      simp [RateLimiter.getConfigForPath, hnone]
    · exact RateLimiter.getConfigForPath_SetPathConfig_self rl q n w
  · intro env id
    have h1 := append_ne_of_not_prefix "/api/v1/delete-user/" id "/api/v1/login" (by decide)
    have h2 := append_ne_of_not_prefix "/api/v1/delete-user/" id "/api/v1/register" (by decide)
    have h3 := append_ne_of_not_prefix "/api/v1/delete-user/" id "/api/v1/refresh-token"
      (by decide)
    have h4 := append_ne_of_not_prefix "/api/v1/delete-user/" id "/api/v1/verify-email"
      (by decide)
    have h5 := append_ne_of_not_prefix "/api/v1/delete-user/" id "/api/v1/change-password"
      (by decide)
    have h6 := append_ne_of_not_prefix "/api/v1/delete-user/" id "/api/v1/users" (by decide)
    have h7 := append_ne_of_not_prefix "/api/v1/delete-user/" id "/api/v1/add-user" (by decide)
    have h8 := append_ne_of_not_prefix "/api/v1/delete-user/" id "/api/v1/update-user-role"
      (by decide)
    have h9 := append_ne_of_not_prefix "/api/v1/delete-user/" id "/api/v1/update-user-status"
      (by decide)
    have h10 := append_ne_of_not_prefix "/api/v1/delete-user/" id "/api/v1/delete-user"
      (by decide)
    simp only [utils.InitRateLimiter, RateLimiter.getConfigForPath, RateLimiter.SetPathConfig,
      GoMap.set, NewRateLimiter, GoMap.empty, h1, h2, h3, h4, h5, h6, h7, h8, h9, h10, if_false]
  · intro env
    simp [utils.InitRateLimiter, RateLimiter.getConfigForPath, RateLimiter.SetPathConfig,
      GoMap.set]

theorem override_needs_exact_path_witness :
    "/api/v1/delete-user".toList <+: "/api/v1/delete-user/17".toList
      ∧ "/api/v1/delete-user" ≠ "/api/v1/delete-user/17"
      ∧ (NewRateLimiter 100 60000000000 300000000000).pathConfigs "/api/v1/delete-user/17" = none
      ∧ ((NewRateLimiter 100 60000000000 300000000000).SetPathConfig "/api/v1/delete-user" 20
          60000000000).getConfigForPath "/api/v1/delete-user/17"
        = (NewRateLimiter 100 60000000000 300000000000).defaultConfig :=
  ⟨by decide, by decide, rfl,
    (override_needs_exact_path.2.1 (NewRateLimiter 100 60000000000 300000000000)
      "/api/v1/delete-user" "/api/v1/delete-user/17" 20 60000000000 (by decide) (by decide)
      rfl).1⟩

/-! ### `GetClientIP` -/

/-- What `strings.Index` returns: `-1` when `substr` starts at no position of
`s`, and otherwise the first position at which it starts. -/
theorem stringsIndex_spec (substr : List Char) (s : List Char) :
    (stringsIndex s substr = -1 ∧ ∀ j : Nat, ¬ substr <+: s.drop j)
      ∨ ∃ i : Nat, stringsIndex s substr = (i : Int) ∧ substr <+: s.drop i
          ∧ ∀ j : Nat, j < i → ¬ substr <+: s.drop j := by
  induction s with
  | nil =>
    cases substr with
    | nil => exact Or.inr ⟨0, by simp [stringsIndex], by simp, by simp⟩
    | cons a as => exact Or.inl ⟨by simp [stringsIndex], by simp⟩
  | cons c cs ih =>
    by_cases hp : substr <+: c :: cs
    · have hb : substr.isPrefixOf (c :: cs) = true := List.isPrefixOf_iff_prefix.mpr hp
      exact Or.inr ⟨0, by simp [stringsIndex, hb], by simpa using hp, by simp⟩
    · have hb : ¬ (substr.isPrefixOf (c :: cs) = true) :=
        fun h => hp (List.isPrefixOf_iff_prefix.mp h)
      rcases ih with ⟨h1, h2⟩ | ⟨i, h1, h2, h3⟩
      · left
        refine ⟨by simp [stringsIndex, hb, h1], ?_⟩
        intro j
        cases j with
        | zero => simpa using hp
        | succ j => simpa using h2 j
      · right
        refine ⟨i + 1, ?_, by simpa using h2, ?_⟩
        · have hne : ¬ ((i : Int) = -1) := by omega
          simp [stringsIndex, hb, h1, hne]
        · intro j hj
          cases j with
          | zero => simpa using hp
          | succ j => simpa using h3 j (by omega)

/-- C30. `GetClientIP`: with a non-empty `X-Forwarded-For` header it returns
the part of the header before the first occurrence of a comma followed by a
space, or the whole header when there is no such occurrence, so a list that
holds no space is returned whole; otherwise it returns a non-empty `X-Real-IP`
header; otherwise the host that `net.SplitHostPort` finds in `RemoteAddr`, or
`RemoteAddr` itself when `SplitHostPort` fails (as for an address without a
port). -/
theorem getClientIP_cases (net : NetPkg) (r : Request) :
    (r.Header "X-Forwarded-For" ≠ "" →
        (∀ i : Nat, ", ".toList <+: (r.Header "X-Forwarded-For").toList.drop i →
          (∀ j : Nat, j < i → ¬ ", ".toList <+: (r.Header "X-Forwarded-For").toList.drop j) →
          GetClientIP net r = String.mk ((r.Header "X-Forwarded-For").toList.take i))
        ∧ ((∀ j : Nat, ¬ ", ".toList <+: (r.Header "X-Forwarded-For").toList.drop j) →
          GetClientIP net r = r.Header "X-Forwarded-For")
        ∧ ((∀ c ∈ (r.Header "X-Forwarded-For").toList, c ≠ ' ') →
          GetClientIP net r = r.Header "X-Forwarded-For"))
      ∧ (r.Header "X-Forwarded-For" = "" → r.Header "X-Real-IP" ≠ "" →
          GetClientIP net r = r.Header "X-Real-IP")
      ∧ (r.Header "X-Forwarded-For" = "" → r.Header "X-Real-IP" = "" →
          (∀ host port : String, net.SplitHostPort r.RemoteAddr = some (host, port) →
            GetClientIP net r = host)
          ∧ (net.SplitHostPort r.RemoteAddr = none → GetClientIP net r = r.RemoteAddr)) := by
  refine ⟨?_, ?_, ?_⟩
  · intro hx
    have hnone : (∀ j : Nat, ¬ ", ".toList <+: (r.Header "X-Forwarded-For").toList.drop j) →
        GetClientIP net r = r.Header "X-Forwarded-For" := by
      intro hno
      rcases stringsIndex_spec ", ".toList (r.Header "X-Forwarded-For").toList with
        ⟨h1, _⟩ | ⟨i, _, h2, _⟩
      · simp only [GetClientIP, hx, ne_eq, not_false_eq_true, if_true, h1, Int.toNat_ofNat,
          List.take_length]
        rfl
      · exact absurd h2 (hno i)
    refine ⟨?_, hnone, ?_⟩
    · intro i hi hmin
      rcases stringsIndex_spec ", ".toList (r.Header "X-Forwarded-For").toList with
        ⟨_, h2⟩ | ⟨i2, h1, h2, h3⟩
      · exact absurd hi (h2 i)
      · have hii : i2 = i := by
          rcases Nat.lt_trichotomy i2 i with h | h | h
          · exact absurd h2 (hmin i2 h)
          · exact h
          · exact absurd hi (h3 i h)
        subst hii
        have hne : ¬ ((i2 : Int) = -1) := by omega
        simp only [GetClientIP, hx, ne_eq, not_false_eq_true, if_true, h1, hne, if_false,
          Int.toNat_ofNat]
    · intro hsp
      apply hnone
      intro j hpre
      obtain ⟨t, ht⟩ := hpre
      have hmem : ' ' ∈ (r.Header "X-Forwarded-For").toList := by
        apply List.mem_of_mem_drop (n := j)
        rw [← ht]
        exact List.mem_append_left t (by decide)
      exact hsp ' ' hmem rfl
  · intro hx hr
    simp [GetClientIP, hx, hr]
  · intro hx hr
    constructor
    · intro host port hs
      simp [GetClientIP, hx, hr, hs]
    · intro hs
      simp [GetClientIP, hx, hr, hs]

theorem getClientIP_cases_witness :
    "1.2.3.4,5.6.7.8" ≠ ""
      ∧ (∀ c ∈ "1.2.3.4,5.6.7.8".toList, c ≠ ' ')
      ∧ GetClientIP { SplitHostPort := fun _ => none }
          { Header := fun name => if name = "X-Forwarded-For" then "1.2.3.4,5.6.7.8" else "",
            RemoteAddr := "10.0.0.1:4711", URLPath := "/x" }
        = "1.2.3.4,5.6.7.8"
      ∧ ", ".toList <+: "1.2.3.4, 5.6.7.8".toList.drop 7
      ∧ (∀ j : Nat, j < 7 → ¬ ", ".toList <+: "1.2.3.4, 5.6.7.8".toList.drop j)
      ∧ GetClientIP { SplitHostPort := fun _ => none }
          { Header := fun name => if name = "X-Forwarded-For" then "1.2.3.4, 5.6.7.8" else "",
            RemoteAddr := "10.0.0.1:4711", URLPath := "/x" }
        = "1.2.3.4" :=
  ⟨by decide, by decide,
    ((getClientIP_cases { SplitHostPort := fun _ => none }
      { Header := fun name => if name = "X-Forwarded-For" then "1.2.3.4,5.6.7.8" else "",
        RemoteAddr := "10.0.0.1:4711", URLPath := "/x" }).1 (by decide)).2.2 (by decide),
    by decide, by decide,
    ((getClientIP_cases { SplitHostPort := fun _ => none }
      { Header := fun name => if name = "X-Forwarded-For" then "1.2.3.4, 5.6.7.8" else "",
        RemoteAddr := "10.0.0.1:4711", URLPath := "/x" }).1 (by decide)).1 7 (by decide)
      (by decide)⟩

end middleware

/-! ## Reads never write -/

namespace cache

/-- C26, as stated, fails: after `Get` at a reading past the expiration of an
entry, which reports not found, the entry is still in the table. -/
theorem expired_entry_stays_after_get :
    (NewCache.Set "k" (Value.num 42) 100 1700000000000000000).Get "k" 1700000000000000200
        = (Value.nil, false)
      ∧ ((NewCache.Set "k" (Value.num 42) 100 1700000000000000000).tableAfterGet "k"
          1700000000000000200).items "k"
        = some { Value := Value.num 42, Expiration := 1700000000000000100 }
      ∧ ((NewCache.Set "k" (Value.num 42) 100 1700000000000000000).tableAfterSafeGetString "k"
          1700000000000000200).items "k"
        = some { Value := Value.num 42, Expiration := 1700000000000000100 } := by
  have hitem : (NewCache.Set "k" (Value.num 42) 100 1700000000000000000).items "k"
      = some { Value := Value.num 42, Expiration := 1700000000000000100 } := by
    rw [Cache.Set_items_self]
    have hw : wrapInt64 (1700000000000000000 + 100) = 1700000000000000100 := by decide
    rw [hw]
  refine ⟨?_, hitem, hitem⟩
  rw [Cache.Get_of_items _ "k" _ _ hitem]
  simp

/-- C26, amended. A read removes nothing: `Get` and `SafeGetString` leave the
table as it is.  An entry found expired is reported as not found and stays in
the table until the sweep, `Delete` or `Flush` removes it. -/
theorem reads_leave_table_unchanged (c : Cache) (key : String) (now : Int) :
    c.tableAfterGet key now = c
      ∧ c.tableAfterSafeGetString key now = c
      ∧ (∀ item : Item, c.items key = some item → item.Expiration > 0 →
          now > item.Expiration →
          c.Get key now = (Value.nil, false)
          ∧ c.SafeGetString key now = ("", false)
          ∧ (c.tableAfterGet key now).items key = some item
          ∧ (c.tableAfterSafeGetString key now).items key = some item
          ∧ (c.cleanupRoutine now).items key = none
          ∧ (c.Delete key).items key = none
          ∧ c.Flush.items key = none) := by
  refine ⟨rfl, rfl, ?_⟩
  intro item hitem h1 h2
  have hx : item.Expiration > 0 ∧ now > item.Expiration := ⟨h1, h2⟩
  refine ⟨?_, ?_, hitem, hitem, ?_, ?_, rfl⟩
  · rw [Cache.Get_of_items c key now item hitem, if_pos hx]
  · rw [Cache.SafeGetString_of_items c key now item hitem, if_pos hx]
  · simp only [Cache.cleanupRoutine, hitem, hx]
    simp
  · simp [Cache.Delete, GoMap.delete]

theorem reads_leave_table_unchanged_witness :
    (NewCache.Set "k" (Value.num 42) 100 1700000000000000000).items "k"
        = some { Value := Value.num 42, Expiration := 1700000000000000100 }
      ∧ (1700000000000000100 : Int) > 0
      ∧ (1700000000000000200 : Int) > 1700000000000000100
      ∧ ((NewCache.Set "k" (Value.num 42) 100 1700000000000000000).cleanupRoutine
          1700000000000000200).items "k" = none :=
  have hitem : (NewCache.Set "k" (Value.num 42) 100 1700000000000000000).items "k"
      = some { Value := Value.num 42, Expiration := 1700000000000000100 } := by
    rw [Cache.Set_items_self]
    have hw : wrapInt64 (1700000000000000000 + 100) = 1700000000000000100 := by decide
    rw [hw]
  ⟨hitem, by decide, by decide,
    ((reads_leave_table_unchanged (NewCache.Set "k" (Value.num 42) 100 1700000000000000000) "k"
      1700000000000000200).2.2 _ hitem (by decide) (by decide)).2.2.2.2.1⟩

end cache

/-! ## Invariants of the limiter along a history of calls -/

namespace middleware

theorem mem_filterWindow (now W t : Int) (s : List Int) :
    t ∈ filterWindow now W s ↔ t ∈ s ∧ now - t < W := by
  rw [filterWindow_eq_filter, List.mem_filter]
  simp

theorem filterWindow_length_le (now W : Int) (s : List Int) :
    (filterWindow now W s).length ≤ s.length := by
  rw [filterWindow_eq_filter]
  exact List.length_filter_le _ _

theorem filterWindow_pairwise (now W : Int) (s : List Int) (h : List.Pairwise (· ≤ ·) s) :
    List.Pairwise (· ≤ ·) (filterWindow now W s) := by
  rw [filterWindow_eq_filter]
  exact h.sublist (List.filter_sublist _)

theorem windowStep_length_le (N W now : Int) (s : List Int)
    (hs : (s.length : Int) ≤ max N 0) :
    (((windowStep N W s now).2.length : Nat) : Int) ≤ max N 0 := by
  have hf := filterWindow_length_le now W s
  unfold windowStep
  by_cases h : ((filterWindow now W s).length : Int) ≥ N
  · rw [if_pos h]
    simp only []
    omega
  · rw [if_neg h]
    simp only [List.length_append, List.length_singleton]
    have : N ≤ max N 0 := le_max_left _ _
    push_cast
    omega

theorem windowStep_ordered (N W now : Int) (s : List Int) (hs : List.Pairwise (· ≤ ·) s)
    (hle : ∀ t ∈ s, t ≤ now) :
    List.Pairwise (· ≤ ·) (windowStep N W s now).2 ∧ ∀ t ∈ (windowStep N W s now).2, t ≤ now := by
  have hmem : ∀ t ∈ filterWindow now W s, t ≤ now :=
    fun t ht => hle t ((mem_filterWindow now W t s).mp ht).1
  rw [windowStep_snd]
  constructor
  · rw [List.pairwise_append]
    refine ⟨filterWindow_pairwise now W s hs, ?_, ?_⟩
    · split <;> simp
    · intro a ha b hb
      split at hb
      · have : b = now := by simpa using hb
        rw [this]
        exact hmem a ha
      · simp at hb
  · intro t ht
    rcases List.mem_append.mp ht with h | h
    · exact hmem t h
    · split at h
      · have : t = now := by simpa using h
        rw [this]
      · simp at h

namespace RateLimiter

theorem isIPAllowed_ipRequests_ne (rl : RateLimiter) (ip k : String) (now : Int) (hk : k ≠ ip) :
    (rl.isIPAllowed ip now).2.ipRequests k = rl.ipRequests k := by
  unfold isIPAllowed
  simp only []
  split <;> simp [GoMap.set, hk]

theorem isPathAllowed_pathRequests_ne (rl : RateLimiter) (path k : String) (now : Int)
    (hk : k ≠ path) : (rl.isPathAllowed path now).2.pathRequests k = rl.pathRequests k := by
  unfold isPathAllowed
  simp only []
  split <;> simp [GoMap.set, hk]

theorem isIPAllowed_getConfigForPath (rl : RateLimiter) (ip p : String) (now : Int) :
    (rl.isIPAllowed ip now).2.getConfigForPath p = rl.getConfigForPath p := by
  obtain ⟨_, h2, h3⟩ := isIPAllowed_frame rl ip now
  unfold getConfigForPath
  rw [h2, h3]

theorem withinLimits_isIPAllowed (rl : RateLimiter) (ip : String) (now : Int)
    (h : rl.withinLimits) : (rl.isIPAllowed ip now).2.withinLimits := by
  intro k
  obtain ⟨f1, _, f3⟩ := isIPAllowed_frame rl ip now
  constructor
  · rw [f3]
    by_cases hk : k = ip
    · subst hk
      rw [(isIPAllowed_eq_windowStep rl k now).2.1]
      exact windowStep_length_le _ _ now _ (h k).1
    · rw [isIPAllowed_ipRequests_ne rl ip k now hk]
      exact (h k).1
  · rw [isIPAllowed_getConfigForPath, f1]
    exact (h k).2

theorem withinLimits_isPathAllowed (rl : RateLimiter) (path : String) (now : Int)
    (h : rl.withinLimits) : (rl.isPathAllowed path now).2.withinLimits := by
  intro k
  obtain ⟨_, f2, f3⟩ := isPathAllowed_configs rl path now
  constructor
  · rw [f2, f3]
    exact (h k).1
  · rw [isPathAllowed_getConfigForPath]
    by_cases hk : k = path
    · subst hk
      rw [(isPathAllowed_eq_windowStep rl k now).2.1]
      exact windowStep_length_le _ _ now _ (h k).2
    · rw [isPathAllowed_pathRequests_ne rl path k now hk]
      exact (h k).2

theorem withinLimits_cleanup (rl : RateLimiter) (now : Int) (h : rl.withinLimits) :
    (rl.cleanup now).withinLimits := by
  intro k
  have hd : (rl.cleanup now).defaultConfig = rl.defaultConfig := rfl
  constructor
  · rw [cleanup_ipRequests_getD, hd]
    have := filterWindow_length_le now rl.defaultConfig.Window ((rl.ipRequests k).getD [])
    have := (h k).1
    omega
  · rw [cleanup_pathRequests_getD, cleanup_getConfigForPath]
    have := filterWindow_length_le now (rl.getConfigForPath k).Window
      ((rl.pathRequests k).getD [])
    have := (h k).2
    omega

theorem withinLimits_SetPathConfig (rl : RateLimiter) (path : String) (n w : Int)
    (h : rl.withinLimits) (hfit : (((rl.pathRequests path).getD []).length : Int) ≤ n) :
    (rl.SetPathConfig path n w).withinLimits := by
  intro k
  constructor
  · exact (h k).1
  · by_cases hk : k = path
    · subst hk
      rw [getConfigForPath_SetPathConfig_self]
      have hreq : (rl.SetPathConfig k n w).pathRequests = rl.pathRequests := rfl
      rw [hreq]
      have : n ≤ max n 0 := le_max_left _ _
      simp only []
      omega
    · rw [getConfigForPath_SetPathConfig_ne rl path k n w hk]
      exact (h k).2

theorem withinLimits_run (ops : List Op) :
    ∀ rl : RateLimiter, rl.withinLimits → rl.overridesFit ops → (rl.run ops).withinLimits := by
  induction ops with
  | nil => intro rl h _; exact h
  | cons op ops ih =>
    intro rl h hfit
    cases op with
    | setPathConfig path n w =>
      simp only [overridesFit] at hfit
      exact ih _ (withinLimits_SetPathConfig rl path n w h hfit.1) hfit.2
    | checkIP ip now =>
      simp only [overridesFit] at hfit
      exact ih _ (withinLimits_isIPAllowed rl ip now h) hfit
    | checkPath path now =>
      simp only [overridesFit] at hfit
      exact ih _ (withinLimits_isPathAllowed rl path now h) hfit
    | sweep now =>
      simp only [overridesFit] at hfit
      exact ih _ (withinLimits_cleanup rl now h) hfit

theorem orderedUpTo_mono (rl : RateLimiter) (B B2 : Int) (h : rl.orderedUpTo B)
    (hB : B ≤ B2) : rl.orderedUpTo B2 := by
  intro k
  exact ⟨⟨(h k).1.1, fun t ht => le_trans ((h k).1.2 t ht) hB⟩,
    ⟨(h k).2.1, fun t ht => le_trans ((h k).2.2 t ht) hB⟩⟩

theorem orderedUpTo_isIPAllowed (rl : RateLimiter) (ip : String) (B now : Int)
    (h : rl.orderedUpTo B) (hB : B ≤ now) : (rl.isIPAllowed ip now).2.orderedUpTo now := by
  intro k
  obtain ⟨f1, _, _⟩ := isIPAllowed_frame rl ip now
  have h2 := orderedUpTo_mono rl B now h hB
  constructor
  · by_cases hk : k = ip
    · subst hk
      rw [(isIPAllowed_eq_windowStep rl k now).2.1]
      exact windowStep_ordered _ _ now _ (h2 k).1.1 (h2 k).1.2
    · rw [isIPAllowed_ipRequests_ne rl ip k now hk]
      exact (h2 k).1
  · rw [f1]
    exact (h2 k).2

theorem orderedUpTo_isPathAllowed (rl : RateLimiter) (path : String) (B now : Int)
    (h : rl.orderedUpTo B) (hB : B ≤ now) : (rl.isPathAllowed path now).2.orderedUpTo now := by
  intro k
  obtain ⟨_, _, f3⟩ := isPathAllowed_configs rl path now
  have h2 := orderedUpTo_mono rl B now h hB
  constructor
  · rw [f3]
    exact (h2 k).1
  · by_cases hk : k = path
    · subst hk
      rw [(isPathAllowed_eq_windowStep rl k now).2.1]
      exact windowStep_ordered _ _ now _ (h2 k).2.1 (h2 k).2.2
    · rw [isPathAllowed_pathRequests_ne rl path k now hk]
      exact (h2 k).2

theorem orderedUpTo_cleanup (rl : RateLimiter) (B now : Int) (h : rl.orderedUpTo B)
    (hB : B ≤ now) : (rl.cleanup now).orderedUpTo now := by
  intro k
  have h2 := orderedUpTo_mono rl B now h hB
  constructor
  · rw [cleanup_ipRequests_getD]
    exact ⟨filterWindow_pairwise _ _ _ (h2 k).1.1,
      fun t ht => (h2 k).1.2 t ((mem_filterWindow _ _ t _).mp ht).1⟩
  · rw [cleanup_pathRequests_getD]
    exact ⟨filterWindow_pairwise _ _ _ (h2 k).2.1,
      fun t ht => (h2 k).2.2 t ((mem_filterWindow _ _ t _).mp ht).1⟩

theorem orderedUpTo_run (ops : List Op) :
    ∀ (rl : RateLimiter) (B now : Int), rl.orderedUpTo B →
      List.Pairwise (· ≤ ·) (B :: (ops.filterMap Op.time ++ [now])) →
      (rl.run ops).orderedUpTo now := by
  induction ops with
  | nil =>
    intro rl B now h hp
    have hB : B ≤ now := by
      rw [List.pairwise_cons] at hp
      exact hp.1 now (by simp)
    exact orderedUpTo_mono rl B now h hB
  | cons op ops ih =>
    intro rl B now h hp
    cases op with
    | setPathConfig path n w =>
      have h2 : (rl.SetPathConfig path n w).orderedUpTo B := h
      exact ih _ B now h2 (by simpa [Op.time] using hp)
    | checkIP ip τ =>
      have hp2 : List.Pairwise (· ≤ ·) (B :: τ :: (ops.filterMap Op.time ++ [now])) := by
        simpa [Op.time] using hp
      rw [List.pairwise_cons] at hp2
      exact ih _ τ now (orderedUpTo_isIPAllowed rl ip B τ h (hp2.1 τ (by simp))) hp2.2
    | checkPath path τ =>
      have hp2 : List.Pairwise (· ≤ ·) (B :: τ :: (ops.filterMap Op.time ++ [now])) := by
        simpa [Op.time] using hp
      rw [List.pairwise_cons] at hp2
      exact ih _ τ now (orderedUpTo_isPathAllowed rl path B τ h (hp2.1 τ (by simp))) hp2.2
    | sweep τ =>
      have hp2 : List.Pairwise (· ≤ ·) (B :: τ :: (ops.filterMap Op.time ++ [now])) := by
        simpa [Op.time] using hp
      rw [List.pairwise_cons] at hp2
      exact ih _ τ now (orderedUpTo_cleanup rl B τ h (hp2.1 τ (by simp))) hp2.2

/-- From a new limiter, along calls at non-decreasing clock readings that end
before or at `now`, every stored sequence is ordered and holds no reading
after `now`. -/
theorem orderedUpTo_run_new (N W c : Int) (ops : List Op) (now : Int)
    (hclock : List.Pairwise (· ≤ ·) (ops.filterMap Op.time ++ [now])) :
    ((NewRateLimiter N W c).run ops).orderedUpTo now := by
  have hnew : ∀ B : Int, (NewRateLimiter N W c).orderedUpTo B := by
    intro B k
    simp [NewRateLimiter, GoMap.empty]
  cases hl : ops.filterMap Op.time ++ [now] with
  | nil => simp at hl
  | cons a rest =>
    rw [hl] at hclock
    refine orderedUpTo_run ops _ a now (hnew a) ?_
    rw [hl, List.pairwise_cons]
    refine ⟨?_, hclock⟩
    intro b hb
    rcases List.mem_cons.mp hb with rfl | hb2
    · exact le_refl _
    · exact (List.pairwise_cons.mp hclock).1 b hb2

end RateLimiter

/-- C23, as stated, fails: an override registered after three admitted checks
on the path leaves three timestamps stored under a resolved `maxEvents` of
two. -/
theorem stored_count_can_exceed_new_override :
    ((((NewRateLimiter 100 60000000000 300000000000).run
          [Op.checkPath "/r" 1, Op.checkPath "/r" 2, Op.checkPath "/r" 3,
            Op.setPathConfig "/r" 2 60000000000]).pathRequests "/r").getD []).length = 3
      ∧ (((NewRateLimiter 100 60000000000 300000000000).run
          [Op.checkPath "/r" 1, Op.checkPath "/r" 2, Op.checkPath "/r" 3,
            Op.setPathConfig "/r" 2 60000000000]).getConfigForPath "/r").MaxRequests = 2
      ∧ ¬ ((((((NewRateLimiter 100 60000000000 300000000000).run
          [Op.checkPath "/r" 1, Op.checkPath "/r" 2, Op.checkPath "/r" 3,
            Op.setPathConfig "/r" 2 60000000000]).pathRequests "/r").getD []).length : Int)
        ≤ (((NewRateLimiter 100 60000000000 300000000000).run
          [Op.checkPath "/r" 1, Op.checkPath "/r" 2, Op.checkPath "/r" 3,
            Op.setPathConfig "/r" 2 60000000000]).getConfigForPath "/r").MaxRequests) := by
  decide

/-- C23, amended. In every limiter state reached from `NewRateLimiter` by
`SetPathConfig` calls, admission checks and sweeps in which no `SetPathConfig`
call sets `maxEvents` below the number of timestamps then stored for its
path, the number of timestamps stored for a key is at most the `maxEvents`
resolved for that key (the default for client keys and unregistered paths,
the override for registered paths), or zero when that is negative. -/
theorem stored_count_within_resolved_limit (N W c : Int) (ops : List Op)
    (hfit : (NewRateLimiter N W c).overridesFit ops) (k : String) :
    ((((((NewRateLimiter N W c).run ops).ipRequests k).getD []).length : Int)
        ≤ max ((NewRateLimiter N W c).run ops).defaultConfig.MaxRequests 0)
      ∧ ((((((NewRateLimiter N W c).run ops).pathRequests k).getD []).length : Int)
        ≤ max (((NewRateLimiter N W c).run ops).getConfigForPath k).MaxRequests 0) := by
  have hnew : (NewRateLimiter N W c).withinLimits := by
    intro k
    simp [NewRateLimiter, GoMap.empty]
  exact RateLimiter.withinLimits_run ops _ hnew hfit k

theorem stored_count_within_resolved_limit_witness :
    (NewRateLimiter 100 1000 5).overridesFit
        [Op.setPathConfig "/r" 2 1000, Op.checkPath "/r" 1, Op.checkPath "/r" 2,
          Op.checkPath "/r" 3, Op.sweep 4, Op.checkIP "1.2.3.4" 5]
      ∧ ((((((NewRateLimiter 100 1000 5).run
          [Op.setPathConfig "/r" 2 1000, Op.checkPath "/r" 1, Op.checkPath "/r" 2,
            Op.checkPath "/r" 3, Op.sweep 4, Op.checkIP "1.2.3.4" 5]).pathRequests
              "/r").getD []).length : Int)
        ≤ max (((NewRateLimiter 100 1000 5).run
          [Op.setPathConfig "/r" 2 1000, Op.checkPath "/r" 1, Op.checkPath "/r" 2,
            Op.checkPath "/r" 3, Op.sweep 4, Op.checkIP "1.2.3.4" 5]).getConfigForPath
              "/r").MaxRequests 0) :=
  have hfit : (NewRateLimiter 100 1000 5).overridesFit
      [Op.setPathConfig "/r" 2 1000, Op.checkPath "/r" 1, Op.checkPath "/r" 2,
        Op.checkPath "/r" 3, Op.sweep 4, Op.checkIP "1.2.3.4" 5] := by
    simp only [RateLimiter.overridesFit, and_true]
    decide
  ⟨hfit,
    (stored_count_within_resolved_limit 100 1000 5
      [Op.setPathConfig "/r" 2 1000, Op.checkPath "/r" 1, Op.checkPath "/r" 2,
        Op.checkPath "/r" 3, Op.sweep 4, Op.checkIP "1.2.3.4" 5] hfit "/r").2⟩

theorem windowStep_lower (N W now : Int) (s : List Int) :
    ∀ t ∈ (windowStep N W s now).2, now - W < t ∨ t = now := by
  intro t ht
  rw [windowStep_snd] at ht
  rcases List.mem_append.mp ht with h | h
  · have := ((mem_filterWindow now W t s).mp h).2
    exact Or.inl (by omega)
  · split at h
    · exact Or.inr (by simpa using h)
    · simp at h

/-- C24, as stated, fails for a window that is not positive: with window 0 an
admitted check stores its own reading `now`, for which `now - window < now`
does not hold. -/
theorem zero_window_reading_outside_window :
    (7 : Int) ∈ (((NewRateLimiter 3 0 5).isIPAllowed "k" 7).2.ipRequests "k").getD []
      ∧ ¬ ((7 : Int) - (NewRateLimiter 3 0 5).defaultConfig.Window < 7) := by
  decide

/-- C24, amended. With a non-decreasing clock, from a new limiter and along
any history of calls, straight after an admission check on key `k` at `now`
(admitted or denied) every timestamp `t` stored for `k` satisfies `t <= now`
and, unless it is the reading `now` just appended, `now - window < t` for the
window resolved for `k`; so `now - window < t <= now` whenever that window is
positive.  The stored sequence is in non-decreasing order. -/
theorem stored_readings_inside_window (N W c : Int) (ops : List Op) (k : String) (now : Int)
    (hclock : List.Pairwise (· ≤ ·) (ops.filterMap Op.time ++ [now])) :
    ((∀ t ∈ ((((NewRateLimiter N W c).run ops).isIPAllowed k now).2.ipRequests k).getD [],
          t ≤ now ∧ (now - ((NewRateLimiter N W c).run ops).defaultConfig.Window < t ∨ t = now))
        ∧ List.Pairwise (· ≤ ·)
            (((((NewRateLimiter N W c).run ops).isIPAllowed k now).2.ipRequests k).getD [])
        ∧ (0 < ((NewRateLimiter N W c).run ops).defaultConfig.Window →
            ∀ t ∈ ((((NewRateLimiter N W c).run ops).isIPAllowed k now).2.ipRequests k).getD [],
              now - ((NewRateLimiter N W c).run ops).defaultConfig.Window < t ∧ t ≤ now))
      ∧ ((∀ t ∈ ((((NewRateLimiter N W c).run ops).isPathAllowed k now).2.pathRequests
              k).getD [],
          t ≤ now
            ∧ (now - (((NewRateLimiter N W c).run ops).getConfigForPath k).Window < t
                ∨ t = now))
        ∧ List.Pairwise (· ≤ ·)
            (((((NewRateLimiter N W c).run ops).isPathAllowed k now).2.pathRequests k).getD [])
        ∧ (0 < (((NewRateLimiter N W c).run ops).getConfigForPath k).Window →
            ∀ t ∈ ((((NewRateLimiter N W c).run ops).isPathAllowed k now).2.pathRequests
                k).getD [],
              now - (((NewRateLimiter N W c).run ops).getConfigForPath k).Window < t
                ∧ t ≤ now)) := by
  have hord := RateLimiter.orderedUpTo_run_new N W c ops now hclock
  have hgen : ∀ (M V : Int) (stored : List Int), List.Pairwise (· ≤ ·) stored →
      (∀ t ∈ stored, t ≤ now) →
      (∀ t ∈ (windowStep M V stored now).2, t ≤ now ∧ (now - V < t ∨ t = now))
        ∧ List.Pairwise (· ≤ ·) (windowStep M V stored now).2
        ∧ (0 < V → ∀ t ∈ (windowStep M V stored now).2, now - V < t ∧ t ≤ now) := by
    intro M V stored h1 h2
    obtain ⟨o1, o2⟩ := windowStep_ordered M V now stored h1 h2
    refine ⟨fun t ht => ⟨o2 t ht, windowStep_lower M V now stored t ht⟩, o1, ?_⟩
    intro hV t ht
    refine ⟨?_, o2 t ht⟩
    rcases windowStep_lower M V now stored t ht with h | h
    · exact h
    · omega
  constructor
  · rw [(RateLimiter.isIPAllowed_eq_windowStep ((NewRateLimiter N W c).run ops) k now).2.1]
    exact hgen _ _ _ (hord k).1.1 (hord k).1.2
  · rw [(RateLimiter.isPathAllowed_eq_windowStep ((NewRateLimiter N W c).run ops) k now).2.1]
    exact hgen _ _ _ (hord k).2.1 (hord k).2.2

theorem stored_readings_inside_window_witness :
    List.Pairwise (· ≤ ·)
        ([Op.checkIP "1.2.3.4" 0, Op.checkIP "1.2.3.4" 700, Op.sweep 900,
            Op.setPathConfig "/r" 5 1000, Op.checkPath "/r" 950].filterMap Op.time ++ [1200])
      ∧ List.Pairwise (· ≤ ·)
          (((((NewRateLimiter 3 1000 5).run
              [Op.checkIP "1.2.3.4" 0, Op.checkIP "1.2.3.4" 700, Op.sweep 900,
                Op.setPathConfig "/r" 5 1000, Op.checkPath "/r" 950]).isIPAllowed "1.2.3.4"
              1200).2.ipRequests "1.2.3.4").getD []) :=
  ⟨by decide,
    (stored_readings_inside_window 3 1000 5
      [Op.checkIP "1.2.3.4" 0, Op.checkIP "1.2.3.4" 700, Op.sweep 900,
        Op.setPathConfig "/r" 5 1000, Op.checkPath "/r" 950] "1.2.3.4" 1200
      (by decide)).1.2.1⟩

end middleware

end Yopta
